import Mathlib

/-!
Verification development for the BB Modeling Toolkit mesh utilities.

The Python source is shallowly embedded: vertex coordinates are exact
rationals, Python `round` is round-half-to-even, meshes are arena-style
lists of `Option` slots (a deleted element becomes `none`, indices stay
stable), and the geometric concavity predicate is embedded over the real
numbers (the source computes with square roots when normalizing basis
vectors).
-/

/-- Python `round`: round half to even (banker's rounding), as used by
`round(v.co.x / threshold)` in the source. -/
def pyRound (q : ℚ) : ℤ :=
  let f := ⌊q⌋
  let r := q - f
  if r < 1/2 then f
  else if 1/2 < r then f + 1
  else if f % 2 = 0 then f else f + 1

/-- Quantized vertex key, a triple of rounded coordinates. -/
abbrev VKey := ℤ × ℤ × ℤ

/-- Vertex key from `select_overlapping_vertices`:
`(round(x / t), round(y / t), round(z / t))`. -/
def vkeyF (t : ℚ) (p : ℚ × ℚ × ℚ) : VKey :=
  (pyRound (p.1 / t), pyRound (p.2.1 / t), pyRound (p.2.2 / t))

/-- Vertex key used by the face-deduplication paths:
`(round(x * factor), round(y * factor), round(z * factor))` with
`factor = 1 / threshold`. -/
def vkeyScaled (factor : ℚ) (p : ℚ × ℚ × ℚ) : VKey :=
  (pyRound (p.1 * factor), pyRound (p.2.1 * factor), pyRound (p.2.2 * factor))

/-- The `seen` dictionary loop of `select_overlapping_vertices`: walk the
vertex indices in order; on a key hit select both the current vertex and
the first-seen vertex for that key, otherwise record the current vertex as
first-seen. -/
def selGo (key : ℕ → VKey) : List ℕ → List (VKey × ℕ) → List ℕ → List ℕ
  | [], _, sel => sel
  | i :: rest, seen, sel =>
    match seen.lookup (key i) with
    | some j => selGo key rest seen (i :: j :: sel)
    | none => selGo key rest ((key i, i) :: seen) sel

/-- `select_overlapping_vertices`: deselect everything, then select the set
of vertex indices flagged by the quantized-key dictionary pass (a vertex is
selected iff its index is a member of the returned list). -/
def selectOverlappingVertices (vs : List (ℚ × ℚ × ℚ)) (t : ℚ) : List ℕ :=
  selGo (fun i => vkeyF t (vs.getD i (0, 0, 0))) (List.range vs.length) [] []

lemma vkey_lookup_cons (k a : VKey) (b : ℕ) (l : List (VKey × ℕ)) :
    List.lookup k ((a, b) :: l) = if k = a then some b else List.lookup k l := by
  by_cases h : k = a
  · simp [List.lookup, h]
  · have hb : (k == a) = false := beq_eq_false_iff_ne.mpr h
    simp [List.lookup, hb, h]

/-- Invariant-preservation lemma for the `seen` dictionary loop: if `seen`
holds exactly the first-seen index of each key among indices `< n` and `sel`
holds exactly the indices `< n` whose key also occurs at another index
`< n`, then after processing indices `n, …, n+m-1` the selection holds
exactly the indices `< n+m` whose key occurs at another index `< n+m`. -/
theorem selGo_mem_iff (key : ℕ → VKey) :
    ∀ (m n : ℕ) (seen : List (VKey × ℕ)) (sel : List ℕ),
      (∀ k j, seen.lookup k = some j ↔ (j < n ∧ key j = k ∧ ∀ j', j' < j → key j' ≠ k)) →
      (∀ i, i ∈ sel ↔ (i < n ∧ ∃ j, j < n ∧ j ≠ i ∧ key j = key i)) →
      ∀ i, i ∈ selGo key (List.range' n m) seen sel ↔
        (i < n + m ∧ ∃ j, j < n + m ∧ j ≠ i ∧ key j = key i) := by
  intro m
  induction m with
  | zero =>
    intro n seen sel hseen hsel i
    simpa [selGo] using hsel i
  | succ m ih =>
    intro n seen sel hseen hsel i
    rw [List.range'_succ]
    have harith : n + 1 + m = n + (m + 1) := by omega
    cases hl : seen.lookup (key n) with
    | some j =>
      obtain ⟨hjn, hkj, _hmin⟩ := (hseen (key n) j).mp hl
      have hseen2 : ∀ k j', seen.lookup k = some j' ↔
          (j' < n + 1 ∧ key j' = k ∧ ∀ j'', j'' < j' → key j'' ≠ k) := by
        intro k j'
        constructor
        · intro h
          obtain ⟨h1, h2, h3⟩ := (hseen k j').mp h
          exact ⟨by omega, h2, h3⟩
        · rintro ⟨hj', hk, hmin'⟩
          by_cases h : j' = n
          · subst h
            exact absurd (hkj.trans hk) (hmin' j hjn)
          · exact (hseen k j').mpr ⟨by omega, hk, hmin'⟩
      have hsel2 : ∀ i', i' ∈ n :: j :: sel ↔
          (i' < n + 1 ∧ ∃ j', j' < n + 1 ∧ j' ≠ i' ∧ key j' = key i') := by
        intro i'
        constructor
        · intro h
          rcases List.mem_cons.mp h with h | h
          · subst h
            exact ⟨by omega, j, by omega, by omega, hkj⟩
          rcases List.mem_cons.mp h with h | h
          · subst h
            exact ⟨by omega, n, by omega, by omega, hkj.symm⟩
          · obtain ⟨h1, j'', h2, h3, h4⟩ := (hsel i').mp h
            exact ⟨by omega, j'', by omega, h3, h4⟩
        · rintro ⟨hi1, j', hj'1, hne, hkey⟩
          by_cases hin : i' = n
          · subst hin
            exact List.mem_cons_self _ _
          have hi : i' < n := by omega
          by_cases hj'n : j' = n
          · subst hj'n
            by_cases hij : i' = j
            · subst hij
              exact List.mem_cons_of_mem _ (List.mem_cons_self _ _)
            · refine List.mem_cons_of_mem _ (List.mem_cons_of_mem _ ((hsel i').mpr ?_))
              exact ⟨hi, j, hjn, fun h => hij h.symm, hkj.trans hkey⟩
          · have hj' : j' < n := by omega
            exact List.mem_cons_of_mem _ (List.mem_cons_of_mem _
              ((hsel i').mpr ⟨hi, j', hj', hne, hkey⟩))
      have hnew := ih (n + 1) seen (n :: j :: sel) hseen2 hsel2 i
      rw [harith] at hnew
      simpa [selGo, hl] using hnew
    | none =>
      have hnone : ∀ j, j < n → key j ≠ key n := by
        intro j hj hkey
        have hex : ∃ j0, j0 < n ∧ key j0 = key n := ⟨j, hj, hkey⟩
        have hspec := Nat.find_spec hex
        have hlook := (hseen (key n) (Nat.find hex)).mpr
          ⟨hspec.1, hspec.2, fun j' hj' hk => Nat.find_min hex hj' ⟨hj'.trans hspec.1, hk⟩⟩
        rw [hl] at hlook
        exact Option.noConfusion hlook
      have hseen2 : ∀ k j', List.lookup k ((key n, n) :: seen) = some j' ↔
          (j' < n + 1 ∧ key j' = k ∧ ∀ j'', j'' < j' → key j'' ≠ k) := by
        intro k j'
        rw [vkey_lookup_cons]
        by_cases hk : k = key n
        · subst hk
          simp only [if_pos rfl]
          constructor
          · intro h
            obtain rfl : n = j' := Option.some.inj h
            exact ⟨by omega, rfl, fun j'' hj'' => hnone j'' hj''⟩
          · rintro ⟨hj', hkeq, _⟩
            by_cases h : j' = n
            · subst h; rfl
            · exact absurd hkeq (hnone j' (by omega))
        · rw [if_neg hk]
          constructor
          · intro h
            obtain ⟨h1, h2, h3⟩ := (hseen k j').mp h
            exact ⟨by omega, h2, h3⟩
          · rintro ⟨hj', hkeq, hmin'⟩
            by_cases h : j' = n
            · subst h
              exact absurd hkeq.symm hk
            · exact (hseen k j').mpr ⟨by omega, hkeq, hmin'⟩
      have hsel2 : ∀ i', i' ∈ sel ↔
          (i' < n + 1 ∧ ∃ j', j' < n + 1 ∧ j' ≠ i' ∧ key j' = key i') := by
        intro i'
        constructor
        · intro h
          obtain ⟨h1, j'', h2, h3, h4⟩ := (hsel i').mp h
          exact ⟨by omega, j'', by omega, h3, h4⟩
        · rintro ⟨hi1, j', hj'1, hne, hkey⟩
          by_cases hin : i' = n
          · subst hin
            exact absurd hkey (hnone j' (by omega))
          have hi : i' < n := by omega
          by_cases hj'n : j' = n
          · subst hj'n
            exact absurd hkey.symm (hnone i' hi)
          · exact (hsel i').mpr ⟨hi, j', by omega, hne, hkey⟩
      have hnew := ih (n + 1) ((key n, n) :: seen) sel hseen2 hsel2 i
      rw [harith] at hnew
      simpa [selGo, hl] using hnew

/-- C1. After `select_overlapping_vertices` runs at threshold `t > 0`, a
vertex is selected iff some other vertex of the mesh has the same quantized
key `(round(x/t), round(y/t), round(z/t))`; in particular both the
first-seen vertex of a key and every later duplicate are selected, and
vertices whose key is unique are never selected. -/
theorem select_overlapping_vertices_selected_iff (vs : List (ℚ × ℚ × ℚ)) (t : ℚ)
    (ht : 0 < t) (i : ℕ) (hi : i < vs.length) :
    i ∈ selectOverlappingVertices vs t ↔
      ∃ j, j < vs.length ∧ j ≠ i ∧
        vkeyF t (vs.getD j (0, 0, 0)) = vkeyF t (vs.getD i (0, 0, 0)) := by
  have h := selGo_mem_iff (fun i => vkeyF t (vs.getD i (0, 0, 0))) vs.length 0 [] []
    (by intro k j; simp) (by intro i'; simp) i
  rw [← List.range_eq_range'] at h
  simp only [Nat.zero_add] at h
  unfold selectOverlappingVertices
  rw [h]
  constructor
  · rintro ⟨_, j, hj, hne, hk⟩
    exact ⟨j, hj, hne, hk⟩
  · rintro ⟨j, hj, hne, hk⟩
    exact ⟨hi, j, hj, hne, hk⟩

/-- Witness for C1 at a concrete mesh: two vertices at the same position
with threshold 1; vertex 0 is selected and the equivalence is realized. -/
theorem select_overlapping_vertices_selected_iff_witness :
    (0 : ℚ) < 1 ∧ (0 < ([((0 : ℚ), (0 : ℚ), (0 : ℚ)), (0, 0, 0)] : List (ℚ × ℚ × ℚ)).length) ∧
      (0 ∈ selectOverlappingVertices [((0 : ℚ), (0 : ℚ), (0 : ℚ)), (0, 0, 0)] 1 ↔
        ∃ j, j < ([((0 : ℚ), (0 : ℚ), (0 : ℚ)), (0, 0, 0)] : List (ℚ × ℚ × ℚ)).length ∧ j ≠ 0 ∧
          vkeyF 1 (([((0 : ℚ), (0 : ℚ), (0 : ℚ)), (0, 0, 0)] : List (ℚ × ℚ × ℚ)).getD j (0, 0, 0)) =
            vkeyF 1 (([((0 : ℚ), (0 : ℚ), (0 : ℚ)), (0, 0, 0)] : List (ℚ × ℚ × ℚ)).getD 0 (0, 0, 0))) :=
  ⟨by norm_num, by norm_num,
    select_overlapping_vertices_selected_iff _ 1 (by norm_num) 0 (by norm_num)⟩

/-- Lexicographic order on quantized keys: the order Python's `sorted` uses
on integer 3-tuples. -/
def keyLe (a b : VKey) : Prop :=
  a.1 < b.1 ∨ (a.1 = b.1 ∧ (a.2.1 < b.2.1 ∨ (a.2.1 = b.2.1 ∧ a.2.2 ≤ b.2.2)))

instance : DecidableRel keyLe := fun a b => by
  unfold keyLe
  exact inferInstance

instance : IsTrans VKey keyLe := by
  constructor
  intro a b c hab hbc
  unfold keyLe at hab hbc ⊢
  omega

instance : IsAntisymm VKey keyLe := by
  constructor
  intro a b hab hba
  unfold keyLe at hab hba
  have h1 : a.1 = b.1 := by omega
  have h2 : a.2.1 = b.2.1 := by omega
  have h3 : a.2.2 = b.2.2 := by omega
  calc a = (a.1, a.2.1, a.2.2) := rfl
    _ = (b.1, b.2.1, b.2.2) := by rw [h1, h2, h3]
    _ = b := rfl

instance : IsTotal VKey keyLe := by
  constructor
  intro a b
  unfold keyLe
  omega

/-- The face-deduplication key from `select_overlapping_faces_fast` /
`fix_overlapping_faces_fast`:
`tuple(sorted((round(x*factor), round(y*factor), round(z*factor)) for v in f.verts))`
with `factor = 1/threshold` — the canonically sorted list of the multiset of
quantized vertex keys of the face's loop. -/
def faceKey (t : ℚ) (loop : List (ℚ × ℚ × ℚ)) : List VKey :=
  Multiset.sort keyLe (↑(loop.map (vkeyScaled (1 / t))))

/-- C2. The face key is invariant under cyclic rotation of the loop's
starting vertex, under reversal of winding direction, and more generally any
face over vertices with equal quantized positions produces an equal key, so
such faces collide in the duplicate dictionary. -/
theorem face_key_rotation_reversal_invariant (t : ℚ) (ht : 0 < t)
    (loop loop2 : List (ℚ × ℚ × ℚ)) (k : ℕ)
    (hq : loop.map (vkeyScaled (1 / t)) = loop2.map (vkeyScaled (1 / t))) :
    faceKey t (loop.rotate k) = faceKey t loop ∧
      faceKey t loop.reverse = faceKey t loop ∧
      faceKey t loop2 = faceKey t loop := by
  refine ⟨?_, ?_, ?_⟩
  · unfold faceKey
    congr 1
    exact Multiset.coe_eq_coe.mpr (((loop.rotate_perm k).map _))
  · unfold faceKey
    congr 1
    exact Multiset.coe_eq_coe.mpr ((loop.reverse_perm).map _)
  · unfold faceKey
    rw [hq]

/-- Witness for C2 at a concrete face: a unit-square quad at threshold 1,
rotated by one vertex and reversed. -/
theorem face_key_rotation_reversal_invariant_witness :
    (0 : ℚ) < 1 ∧
      (faceKey 1 (([((0 : ℚ), (0 : ℚ), (0 : ℚ)), (1, 0, 0), (1, 1, 0), (0, 1, 0)] :
          List (ℚ × ℚ × ℚ)).rotate 1) =
        faceKey 1 [((0 : ℚ), (0 : ℚ), (0 : ℚ)), (1, 0, 0), (1, 1, 0), (0, 1, 0)] ∧
      faceKey 1 ([((0 : ℚ), (0 : ℚ), (0 : ℚ)), (1, 0, 0), (1, 1, 0), (0, 1, 0)] :
          List (ℚ × ℚ × ℚ)).reverse =
        faceKey 1 [((0 : ℚ), (0 : ℚ), (0 : ℚ)), (1, 0, 0), (1, 1, 0), (0, 1, 0)] ∧
      faceKey 1 [((0 : ℚ), (0 : ℚ), (0 : ℚ)), (1, 0, 0), (1, 1, 0), (0, 1, 0)] =
        faceKey 1 [((0 : ℚ), (0 : ℚ), (0 : ℚ)), (1, 0, 0), (1, 1, 0), (0, 1, 0)]) :=
  ⟨by norm_num,
    face_key_rotation_reversal_invariant 1 (by norm_num) _ _ 1 rfl⟩

/-- Tabulate a list of length `n` from an index function (used to model
index-stable in-place passes over mesh element arrays). -/
def tab (n : ℕ) (f : ℕ → α) : List α := (List.range n).map f

/-- Arena-style mesh: vertices, edges and faces keep stable indices; a
deleted element's slot becomes `none`. Edges are vertex-index pairs, faces
are vertex-index loops. -/
structure QMesh where
  verts : List (Option (ℚ × ℚ × ℚ))
  edges : List (Option (ℕ × ℕ))
  faces : List (Option (List ℕ))
  deriving DecidableEq

def vertAt (m : QMesh) (i : ℕ) : Option (ℚ × ℚ × ℚ) := m.verts.getD i none

def edgeAt (m : QMesh) (i : ℕ) : Option (ℕ × ℕ) := m.edges.getD i none

def faceAt (m : QMesh) (i : ℕ) : Option (List ℕ) := m.faces.getD i none

/-- Position of a vertex index: its coordinates when live, a default
otherwise (never reached on well-formed references). -/
def posAt (m : QMesh) (i : ℕ) : ℚ × ℚ × ℚ := (vertAt m i).getD (0, 0, 0)

/-- First live vertex slot whose quantized key is `k` (the canonical
representative of the key group, per §4.2 of the spec). -/
def firstLive (t : ℚ) (k : VKey) : List (Option (ℚ × ℚ × ℚ)) → Option ℕ
  | [] => none
  | v :: rest =>
    if v.map (vkeyF t) = some k then some 0 else (firstLive t k rest).map (· + 1)

/-- Canonical vertex of a vertex index: the first live vertex sharing its
quantized key; dead or out-of-range indices are left unchanged. -/
def canon (m : QMesh) (t : ℚ) (i : ℕ) : ℕ :=
  match vertAt m i with
  | some p => (firstLive t (vkeyF t p) m.verts).getD i
  | none => i

/-- Modelled from the spec: `bmesh.ops.remove_doubles` is a host primitive;
§4.3 step 1 specifies it as "using the vertex key groups from §4.2, unify
each duplicate vertex's incident-edge/face references onto its canonical
vertex, then discard the duplicate vertex". -/
def mergeStep (t : ℚ) (m : QMesh) : QMesh where
  verts := tab m.verts.length (fun i =>
    match vertAt m i with
    | some p => if canon m t i = i then some p else none
    | none => none)
  edges := m.edges.map (Option.map (fun e => (canon m t e.1, canon m t e.2)))
  faces := m.faces.map (Option.map (fun L => L.map (canon m t)))

/-- Face-deduplication key of a loop inside a mesh: the sorted quantized
keys of its vertices, as computed by `fix_overlapping_faces_fast`. -/
def faceKeyM (m : QMesh) (t : ℚ) (L : List ℕ) : List VKey :=
  Multiset.sort keyLe (↑(L.map (fun i => vkeyScaled (1 / t) (posAt m i))))

/-- Whether an earlier live face shares this loop's key (the dictionary-hit
test of `fix_overlapping_faces_fast`). -/
def dupBefore (m : QMesh) (t : ℚ) (i : ℕ) (L : List ℕ) : Bool :=
  (List.range i).any (fun j =>
    match faceAt m j with
    | some g => decide (faceKeyM m t g = faceKeyM m t L)
    | none => false)

/-- `fix_overlapping_faces_fast`: keep the first-seen face of each key,
delete every later face with the same key (§4.3 step 2: only the duplicate
faces are deleted). -/
def faceDedup (t : ℚ) (m : QMesh) : QMesh where
  verts := m.verts
  edges := m.edges
  faces := tab m.faces.length (fun i =>
    match faceAt m i with
    | some L => if dupBefore m t i L then none else some L
    | none => none)

/-- A vertex index is used iff some live edge or live face references it
(`len(v.link_edges) == 0 and len(v.link_faces) == 0` negated). -/
def vertUsed (m : QMesh) (r : ℕ) : Bool :=
  m.edges.any (fun e => e.elim false (fun e2 => e2.1 == r || e2.2 == r)) ||
    m.faces.any (fun f => f.elim false (fun L => L.contains r))

/-- Cleanup step 3: delete loose vertices (no incident edges, no incident
faces). -/
def looseVertStep (m : QMesh) : QMesh where
  verts := tab m.verts.length (fun i =>
    match vertAt m i with
    | some p => if vertUsed m i then some p else none
    | none => none)
  edges := m.edges
  faces := m.faces

/-- The cyclically adjacent index pairs of a face loop. -/
def cyclicPairs (l : List ℕ) : List (ℕ × ℕ) :=
  (List.range l.length).map (fun k => (l.getD k 0, l.getD ((k + 1) % l.length) 0))

/-- Whether a loop traverses the edge `e` (in either direction). -/
def loopHasEdge (l : List ℕ) (e : ℕ × ℕ) : Bool :=
  (cyclicPairs l).any (fun p => p == e || p == (e.2, e.1))

/-- An edge is used iff some live face traverses it (`len(e.link_faces)`
nonzero). -/
def edgeUsed (m : QMesh) (e : ℕ × ℕ) : Bool :=
  m.faces.any (fun f => f.elim false (fun L => loopHasEdge L e))

/-- Cleanup step 4: delete loose edges (no incident faces); §4.3 step 4
deletes only the edges themselves. -/
def looseEdgeStep (m : QMesh) : QMesh where
  verts := m.verts
  edges := m.edges.map (fun e =>
    match e with
    | some e2 => if edgeUsed m e2 then some e2 else none
    | none => none)
  faces := m.faces

/-- Modelled from the spec: `bpy.ops.mesh.normals_make_consistent` is a host
primitive whose contract (§4.3 step 5) is to flip the winding of faces so a
component becomes consistently wound; which faces get flipped is left to the
host, so the step is parametrized by an arbitrary flip choice. -/
def normalsStep (flip : ℕ → Bool) (m : QMesh) : QMesh where
  verts := m.verts
  edges := m.edges
  faces := tab m.faces.length (fun i =>
    (faceAt m i).map (fun L => if flip i then L.reverse else L))

/-- The `MESH_OT_cleanup.execute` pipeline: merge overlapping vertices,
remove duplicate faces by quantized key, delete loose vertices, delete loose
edges, recompute normals. -/
def cleanupPipeline (t : ℚ) (flip : ℕ → Bool) (m : QMesh) : QMesh :=
  normalsStep flip (looseEdgeStep (looseVertStep (faceDedup t (mergeStep t m))))

def liveVertCount (m : QMesh) : ℕ := (m.verts.filter Option.isSome).length

def liveFaceCount (m : QMesh) : ℕ := (m.faces.filter Option.isSome).length

/-- A trivial winding choice (flip nothing). -/
def noFlip : ℕ → Bool := fun _ => false

lemma tab_length (n : ℕ) (f : ℕ → α) : (tab n f).length = n := by
  simp [tab]

lemma tab_getD (n : ℕ) (f : ℕ → α) (i : ℕ) (h : i < n) (d : α) :
    (tab n f).getD i d = f i := by
  have hlen : i < (tab n f).length := by simpa [tab_length]
  rw [List.getD_eq_getElem _ _ hlen]
  simp [tab]

lemma tab_getD_ge (n : ℕ) (f : ℕ → α) (i : ℕ) (h : n ≤ i) (d : α) :
    (tab n f).getD i d = d :=
  List.getD_eq_default _ _ (by simpa [tab_length])

lemma tab_eq_self (l : List α) (d : α) (f : ℕ → α)
    (h : ∀ i, i < l.length → f i = l.getD i d) : tab l.length f = l := by
  apply List.ext_getElem (tab_length _ _)
  intro i h1 h2
  have := h i h2
  rw [List.getD_eq_getElem _ _ h2] at this
  simpa [tab] using this

lemma list_map_eq_self (l : List α) (f : α → α) (h : ∀ x ∈ l, f x = x) :
    l.map f = l := by
  induction l with
  | nil => rfl
  | cons a l ih =>
    simp only [List.map_cons, h a (List.mem_cons_self a l),
      ih (fun x hx => h x (List.mem_cons_of_mem a hx))]

lemma qmesh_eq_of (m m2 : QMesh) (hv : m.verts = m2.verts)
    (he : m.edges = m2.edges) (hf : m.faces = m2.faces) : m = m2 := by
  cases m
  cases m2
  simp_all

lemma vertAt_mergeStep (t : ℚ) (m : QMesh) (i : ℕ) :
    vertAt (mergeStep t m) i =
      match vertAt m i with
      | some p => if canon m t i = i then some p else none
      | none => none := by
  by_cases h : i < m.verts.length
  · exact tab_getD _ _ _ h _
  · have h1 : vertAt m i = none :=
      List.getD_eq_default _ _ (by omega)
    have h2 : vertAt (mergeStep t m) i = none :=
      tab_getD_ge _ _ _ (by omega) _
    rw [h1, h2]

lemma faceAt_faceDedup (t : ℚ) (m : QMesh) (i : ℕ) :
    faceAt (faceDedup t m) i =
      match faceAt m i with
      | some L => if dupBefore m t i L then none else some L
      | none => none := by
  by_cases h : i < m.faces.length
  · exact tab_getD _ _ _ h _
  · have h1 : faceAt m i = none := List.getD_eq_default _ _ (by omega)
    have h2 : faceAt (faceDedup t m) i = none := tab_getD_ge _ _ _ (by omega) _
    rw [h1, h2]

lemma vertAt_looseVertStep (m : QMesh) (i : ℕ) :
    vertAt (looseVertStep m) i =
      match vertAt m i with
      | some p => if vertUsed m i then some p else none
      | none => none := by
  by_cases h : i < m.verts.length
  · exact tab_getD _ _ _ h _
  · have h1 : vertAt m i = none := List.getD_eq_default _ _ (by omega)
    have h2 : vertAt (looseVertStep m) i = none := tab_getD_ge _ _ _ (by omega) _
    rw [h1, h2]

lemma faceAt_normalsStep (flip : ℕ → Bool) (m : QMesh) (i : ℕ) :
    faceAt (normalsStep flip m) i =
      (faceAt m i).map (fun L => if flip i then L.reverse else L) := by
  by_cases h : i < m.faces.length
  · exact tab_getD _ _ _ h _
  · have h1 : faceAt m i = none := List.getD_eq_default _ _ (by omega)
    have h2 : faceAt (normalsStep flip m) i = none := tab_getD_ge _ _ _ (by omega) _
    rw [h1, h2]
    rfl

lemma firstLive_eq_some_iff (t : ℚ) (k : VKey) :
    ∀ (l : List (Option (ℚ × ℚ × ℚ))) (j : ℕ),
      firstLive t k l = some j ↔
        ((l.getD j none).map (vkeyF t) = some k ∧
          ∀ j', j' < j → (l.getD j' none).map (vkeyF t) ≠ some k) := by
  intro l
  induction l with
  | nil =>
    intro j
    simp [firstLive]
  | cons v rest ih =>
    intro j
    by_cases hv : v.map (vkeyF t) = some k
    · simp only [firstLive, if_pos hv]
      constructor
      · intro h
        obtain rfl : 0 = j := Option.some.inj h
        exact ⟨hv, by omega⟩
      · rintro ⟨h1, h2⟩
        cases j with
        | zero => rfl
        | succ j2 => exact absurd hv (by simpa using h2 0 (by omega))
    · simp only [firstLive, if_neg hv]
      cases j with
      | zero =>
        simp only [List.getD_cons_zero]
        constructor
        · intro h
          obtain ⟨j2, _, hj2⟩ := Option.map_eq_some'.mp h
          omega
        · rintro ⟨h1, _⟩
          exact absurd h1 hv
      | succ j2 =>
        constructor
        · intro h
          obtain ⟨j3, hj3, hj3e⟩ := Option.map_eq_some'.mp h
          have hj32 : j3 = j2 := by omega
          rw [hj32] at hj3
          obtain ⟨h1, h2⟩ := (ih j2).mp hj3
          refine ⟨by simpa using h1, ?_⟩
          intro j' hj'
          cases j' with
          | zero => simpa using hv
          | succ j4 =>
            simpa using h2 j4 (by omega)
        · rintro ⟨h1, h2⟩
          have hrest : firstLive t k rest = some j2 := by
            refine (ih j2).mpr ⟨by simpa using h1, ?_⟩
            intro j' hj'
            simpa using h2 (j' + 1) (by omega)
          rw [hrest]
          rfl

lemma firstLive_eq_none_iff (t : ℚ) (k : VKey) :
    ∀ l : List (Option (ℚ × ℚ × ℚ)),
      firstLive t k l = none ↔ ∀ j, (l.getD j none).map (vkeyF t) ≠ some k := by
  intro l
  induction l with
  | nil => simp [firstLive]
  | cons v rest ih =>
    by_cases hv : v.map (vkeyF t) = some k
    · simp only [firstLive, if_pos hv]
      constructor
      · intro h
        exact Option.noConfusion h
      · intro h
        exact absurd (by simpa using hv) (h 0)
    · simp only [firstLive, if_neg hv]
      constructor
      · intro h j
        cases j with
        | zero => simpa using hv
        | succ j2 =>
          have := ih.mp (Option.map_eq_none'.mp h)
          simpa using this j2
      · intro h
        rw [ih.mpr (fun j => by simpa using h (j + 1))]
        rfl

/-- Key-injectivity: any two live vertices with the same quantized key are
the same vertex. -/
def KeyInj (m : QMesh) (t : ℚ) : Prop :=
  ∀ i j p q, vertAt m i = some p → vertAt m j = some q →
    vkeyF t p = vkeyF t q → i = j

lemma canon_eq_self_of_keyInj (m : QMesh) (t : ℚ) (h : KeyInj m t) (i : ℕ) :
    canon m t i = i := by
  unfold canon
  cases hv : vertAt m i with
  | none => rfl
  | some p =>
    show (firstLive t (vkeyF t p) m.verts).getD i = i
    cases hf : firstLive t (vkeyF t p) m.verts with
    | none => rfl
    | some j =>
      show j = i
      obtain ⟨h1, _⟩ := (firstLive_eq_some_iff t (vkeyF t p) m.verts j).mp hf
      obtain ⟨q, hq, hqk⟩ := Option.map_eq_some'.mp h1
      exact h j i q p hq hv hqk

lemma mergeStep_eq_self (m : QMesh) (t : ℚ) (h : KeyInj m t) :
    mergeStep t m = m := by
  have hc : ∀ i, canon m t i = i := canon_eq_self_of_keyInj m t h
  refine qmesh_eq_of _ _ ?_ ?_ ?_
  · show tab m.verts.length _ = m.verts
    apply tab_eq_self m.verts none
    intro i hi
    cases hv : vertAt m i with
    | none => simpa [vertAt] using hv.symm
    | some p =>
      show (if canon m t i = i then some p else none) = m.verts.getD i none
      rw [if_pos (hc i)]
      simpa [vertAt] using hv.symm
  · show m.edges.map _ = m.edges
    apply list_map_eq_self
    intro e he
    cases e with
    | none => rfl
    | some e2 => simp [hc]
  · show m.faces.map _ = m.faces
    apply list_map_eq_self
    intro f hf
    cases f with
    | none => rfl
    | some L =>
      simp only [Option.map_some', Option.some.injEq]
      exact list_map_eq_self L _ (fun x _ => hc x)

lemma vertAt_mergeStep_some (t : ℚ) (m : QMesh) (i : ℕ) (p : ℚ × ℚ × ℚ)
    (h : vertAt (mergeStep t m) i = some p) :
    vertAt m i = some p ∧ canon m t i = i := by
  rw [vertAt_mergeStep] at h
  cases hv : vertAt m i with
  | none =>
    rw [hv] at h
    exact Option.noConfusion h
  | some p2 =>
    rw [hv] at h
    have h2 : (if canon m t i = i then some p2 else none) = some p := h
    by_cases hcc : canon m t i = i
    · rw [if_pos hcc] at h2
      exact ⟨h2, hcc⟩
    · rw [if_neg hcc] at h2
      exact Option.noConfusion h2

lemma keyInj_mergeStep (m : QMesh) (t : ℚ) : KeyInj (mergeStep t m) t := by
  intro i j p q hi hj hk
  obtain ⟨hi1, hi2⟩ := vertAt_mergeStep_some t m i p hi
  obtain ⟨hj1, hj2⟩ := vertAt_mergeStep_some t m j q hj
  cases hf : firstLive t (vkeyF t p) m.verts with
  | none =>
    have h0 := (firstLive_eq_none_iff t (vkeyF t p) m.verts).mp hf i
    rw [show m.verts.getD i none = vertAt m i from rfl, hi1] at h0
    simp at h0
  | some j0 =>
    have hci : canon m t i = j0 := by
      unfold canon
      rw [hi1]
      show (firstLive t (vkeyF t p) m.verts).getD i = j0
      rw [hf]
      rfl
    have hcj : canon m t j = j0 := by
      unfold canon
      rw [hj1]
      show (firstLive t (vkeyF t q) m.verts).getD j = j0
      rw [← hk, hf]
      rfl
    omega

/-- Vertex thinning: every vertex slot is unchanged or has been deleted. -/
def VertThin (m2 m : QMesh) : Prop :=
  ∀ i, vertAt m2 i = vertAt m i ∨ vertAt m2 i = none

lemma keyInj_of_vertThin (m m2 : QMesh) (t : ℚ) (h : KeyInj m t)
    (hthin : VertThin m2 m) : KeyInj m2 t := by
  intro i j p q hi hj hk
  rcases hthin i with h1 | h1
  · rcases hthin j with h2 | h2
    · exact h i j p q (h1 ▸ hi) (h2 ▸ hj) hk
    · rw [hj] at h2; exact Option.noConfusion h2
  · rw [hi] at h1; exact Option.noConfusion h1

lemma vertThin_faceDedup (t : ℚ) (m : QMesh) : VertThin (faceDedup t m) m :=
  fun _ => Or.inl rfl

lemma vertThin_looseVertStep (m : QMesh) : VertThin (looseVertStep m) m := by
  intro i
  rw [vertAt_looseVertStep]
  cases hv : vertAt m i with
  | none => exact Or.inr rfl
  | some p =>
    by_cases hu : vertUsed m i
    · left
      show (if vertUsed m i = true then some p else none) = some p
      rw [if_pos hu]
    · right
      show (if vertUsed m i = true then some p else none) = none
      rw [if_neg hu]

lemma vertThin_looseEdgeStep (m : QMesh) : VertThin (looseEdgeStep m) m :=
  fun _ => Or.inl rfl

lemma vertThin_normalsStep (flip : ℕ → Bool) (m : QMesh) :
    VertThin (normalsStep flip m) m :=
  fun _ => Or.inl rfl

lemma keyInj_cleanupPipeline (m : QMesh) (t : ℚ) (flip : ℕ → Bool) :
    KeyInj (cleanupPipeline t flip m) t := by
  unfold cleanupPipeline
  apply keyInj_of_vertThin _ _ _ _ (vertThin_normalsStep _ _)
  apply keyInj_of_vertThin _ _ _ _ (vertThin_looseEdgeStep _)
  apply keyInj_of_vertThin _ _ _ _ (vertThin_looseVertStep _)
  apply keyInj_of_vertThin _ _ _ _ (vertThin_faceDedup _ _)
  exact keyInj_mergeStep m t

/-- Face-key injectivity: any two live faces with the same dedup key are the
same face. -/
def FaceKeyInj (m : QMesh) (t : ℚ) : Prop :=
  ∀ i j L G, faceAt m i = some L → faceAt m j = some G →
    faceKeyM m t L = faceKeyM m t G → i = j

lemma dupBefore_eq_true_iff (m : QMesh) (t : ℚ) (i : ℕ) (L : List ℕ) :
    dupBefore m t i L = true ↔
      ∃ j, j < i ∧ ∃ G, faceAt m j = some G ∧ faceKeyM m t G = faceKeyM m t L := by
  unfold dupBefore
  rw [List.any_eq_true]
  constructor
  · rintro ⟨j, hj, hj2⟩
    refine ⟨j, List.mem_range.mp hj, ?_⟩
    cases hg : faceAt m j with
    | none => rw [hg] at hj2; exact Bool.noConfusion hj2
    | some G =>
      rw [hg] at hj2
      exact ⟨G, rfl, of_decide_eq_true hj2⟩
  · rintro ⟨j, hj, G, hG, hkey⟩
    refine ⟨j, List.mem_range.mpr hj, ?_⟩
    rw [hG]
    exact decide_eq_true hkey

lemma faceAt_faceDedup_some (t : ℚ) (m : QMesh) (i : ℕ) (L : List ℕ)
    (h : faceAt (faceDedup t m) i = some L) :
    faceAt m i = some L ∧ dupBefore m t i L = false := by
  rw [faceAt_faceDedup] at h
  cases hv : faceAt m i with
  | none =>
    rw [hv] at h
    exact Option.noConfusion h
  | some L2 =>
    rw [hv] at h
    have h2 : (if dupBefore m t i L2 then none else some L2) = some L := h
    by_cases hd : dupBefore m t i L2
    · rw [if_pos hd] at h2
      exact Option.noConfusion h2
    · rw [if_neg hd] at h2
      obtain rfl : L2 = L := Option.some.inj h2
      exact ⟨rfl, Bool.of_not_eq_true hd⟩

lemma faceDedup_eq_self (m : QMesh) (t : ℚ) (h : FaceKeyInj m t) :
    faceDedup t m = m := by
  refine qmesh_eq_of _ _ rfl rfl ?_
  show tab m.faces.length _ = m.faces
  apply tab_eq_self m.faces none
  intro i hi
  cases hv : faceAt m i with
  | none => simpa [faceAt] using hv.symm
  | some L =>
    show (if dupBefore m t i L then none else some L) = m.faces.getD i none
    have hd : dupBefore m t i L = false := by
      by_cases hd2 : dupBefore m t i L
      · obtain ⟨j, hj, G, hG, hkey⟩ := (dupBefore_eq_true_iff m t i L).mp hd2
        have := h j i G L hG hv hkey
        omega
      · exact Bool.of_not_eq_true hd2
    rw [hd]
    simpa [faceAt] using hv.symm

lemma faceKeyM_faceDedup (t t2 : ℚ) (m : QMesh) (L : List ℕ) :
    faceKeyM (faceDedup t m) t2 L = faceKeyM m t2 L := rfl

lemma faceKeyInj_faceDedup (m : QMesh) (t : ℚ) : FaceKeyInj (faceDedup t m) t := by
  intro i j L G hi hj hkey
  obtain ⟨hi1, hi2⟩ := faceAt_faceDedup_some t m i L hi
  obtain ⟨hj1, hj2⟩ := faceAt_faceDedup_some t m j G hj
  rw [faceKeyM_faceDedup, faceKeyM_faceDedup] at hkey
  rcases Nat.lt_trichotomy i j with h | h | h
  · have : dupBefore m t j G = true :=
      (dupBefore_eq_true_iff m t j G).mpr ⟨i, h, L, hi1, hkey⟩
    rw [this] at hj2
    exact Bool.noConfusion hj2
  · exact h
  · have : dupBefore m t i L = true :=
      (dupBefore_eq_true_iff m t i L).mpr ⟨j, h, G, hj1, hkey.symm⟩
    rw [this] at hi2
    exact Bool.noConfusion hi2

lemma mem_of_faceAt_some (m : QMesh) (i : ℕ) (L : List ℕ)
    (h : faceAt m i = some L) : some L ∈ m.faces := by
  by_cases hi : i < m.faces.length
  · rw [show faceAt m i = m.faces.getD i none from rfl,
      List.getD_eq_getElem _ _ hi] at h
    exact h ▸ List.getElem_mem hi
  · rw [show faceAt m i = m.faces.getD i none from rfl,
      List.getD_eq_default _ _ (by omega)] at h
    exact Option.noConfusion h

lemma vertUsed_of_mem_face (m : QMesh) (i r : ℕ) (L : List ℕ)
    (hf : faceAt m i = some L) (hr : r ∈ L) : vertUsed m r = true := by
  unfold vertUsed
  rw [Bool.or_eq_true]
  right
  rw [List.any_eq_true]
  exact ⟨some L, mem_of_faceAt_some m i L hf, by simpa using hr⟩

lemma faceKeyM_looseVertStep_of_live (m : QMesh) (t : ℚ) (i : ℕ) (L : List ℕ)
    (hf : faceAt m i = some L) :
    faceKeyM (looseVertStep m) t L = faceKeyM m t L := by
  unfold faceKeyM
  congr 2
  apply List.map_congr_left
  intro r hr
  have hp : posAt (looseVertStep m) r = posAt m r := by
    unfold posAt
    rw [vertAt_looseVertStep]
    cases hv : vertAt m r with
    | none => rfl
    | some p =>
      have hu : vertUsed m r = true := vertUsed_of_mem_face m i r L hf hr
      show (Option.getD (if vertUsed m r = true then some p else none) (0, 0, 0)) = _
      rw [if_pos hu]
  rw [hp]

lemma faceKeyInj_looseVertStep (m : QMesh) (t : ℚ) (h : FaceKeyInj m t) :
    FaceKeyInj (looseVertStep m) t := by
  intro i j L G hi hj hkey
  have hi2 : faceAt m i = some L := hi
  have hj2 : faceAt m j = some G := hj
  rw [faceKeyM_looseVertStep_of_live m t i L hi2,
    faceKeyM_looseVertStep_of_live m t j G hj2] at hkey
  exact h i j L G hi2 hj2 hkey

lemma faceKeyInj_looseEdgeStep (m : QMesh) (t : ℚ) (h : FaceKeyInj m t) :
    FaceKeyInj (looseEdgeStep m) t := h

lemma faceKeyM_reverse (m : QMesh) (t : ℚ) (L : List ℕ) :
    faceKeyM m t L.reverse = faceKeyM m t L := by
  unfold faceKeyM
  congr 1
  exact Multiset.coe_eq_coe.mpr ((L.reverse_perm).map _)

lemma faceAt_normalsStep_some (flip : ℕ → Bool) (m : QMesh) (i : ℕ) (L2 : List ℕ)
    (h : faceAt (normalsStep flip m) i = some L2) :
    ∃ L, faceAt m i = some L ∧ L2 = (if flip i then L.reverse else L) := by
  rw [faceAt_normalsStep] at h
  obtain ⟨L, hL, hL2⟩ := Option.map_eq_some'.mp h
  exact ⟨L, hL, hL2.symm⟩

lemma faceKeyInj_normalsStep (flip : ℕ → Bool) (m : QMesh) (t : ℚ)
    (h : FaceKeyInj m t) : FaceKeyInj (normalsStep flip m) t := by
  intro i j L2 G2 hi hj hkey
  obtain ⟨L, hL, rfl⟩ := faceAt_normalsStep_some flip m i L2 hi
  obtain ⟨G, hG, rfl⟩ := faceAt_normalsStep_some flip m j G2 hj
  have hkeyL : faceKeyM (normalsStep flip m) t (if flip i then L.reverse else L) =
      faceKeyM m t L := by
    by_cases hfl : flip i
    · rw [if_pos hfl]
      exact faceKeyM_reverse m t L
    · rw [if_neg hfl]
      rfl
  have hkeyG : faceKeyM (normalsStep flip m) t (if flip j then G.reverse else G) =
      faceKeyM m t G := by
    by_cases hfl : flip j
    · rw [if_pos hfl]
      exact faceKeyM_reverse m t G
    · rw [if_neg hfl]
      rfl
  rw [hkeyL, hkeyG] at hkey
  exact h i j L G hL hG hkey

lemma faceKeyInj_cleanupPipeline (m : QMesh) (t : ℚ) (flip : ℕ → Bool) :
    FaceKeyInj (cleanupPipeline t flip m) t := by
  unfold cleanupPipeline
  apply faceKeyInj_normalsStep
  apply faceKeyInj_looseEdgeStep
  apply faceKeyInj_looseVertStep
  exact faceKeyInj_faceDedup _ t

lemma mem_cyclicPairs_iff (l : List ℕ) (a b : ℕ) :
    (a, b) ∈ cyclicPairs l ↔
      ∃ k, k < l.length ∧ l.getD k 0 = a ∧ l.getD ((k + 1) % l.length) 0 = b := by
  unfold cyclicPairs
  simp only [List.mem_map, List.mem_range, Prod.mk.injEq]

lemma getD_reverse (l : List α) (d : α) (k : ℕ) (h : k < l.length) :
    l.reverse.getD k d = l.getD (l.length - 1 - k) d := by
  rw [List.getD_eq_getElem _ _ (by simpa), List.getD_eq_getElem _ _ (by omega)]
  rw [List.getElem_reverse]

lemma cyclicPairs_reverse_swap (l : List ℕ) (a b : ℕ)
    (h : (a, b) ∈ cyclicPairs l.reverse) : (b, a) ∈ cyclicPairs l := by
  rw [mem_cyclicPairs_iff] at h ⊢
  obtain ⟨k, hk, ha, hb⟩ := h
  rw [List.length_reverse] at hk
  have hn : 0 < l.length := by omega
  by_cases hk1 : k + 1 < l.length
  · have hmod : (k + 1) % l.reverse.length = k + 1 := by
      rw [List.length_reverse]
      exact Nat.mod_eq_of_lt hk1
    rw [hmod] at hb
    rw [getD_reverse l 0 k (by omega)] at ha
    rw [getD_reverse l 0 (k + 1) (by omega)] at hb
    refine ⟨l.length - 2 - k, by omega, ?_, ?_⟩
    · have he : l.length - 1 - (k + 1) = l.length - 2 - k := by omega
      rw [he] at hb
      exact hb
    · have he : (l.length - 2 - k + 1) % l.length = l.length - 1 - k := by
        rw [Nat.mod_eq_of_lt (by omega)]
        omega
      rw [he]
      exact ha
  · have hk1e : k + 1 = l.length := by omega
    have hmod : (k + 1) % l.reverse.length = 0 := by
      rw [List.length_reverse, hk1e, Nat.mod_self]
    rw [hmod] at hb
    rw [getD_reverse l 0 k (by omega)] at ha
    rw [getD_reverse l 0 0 (by omega)] at hb
    refine ⟨l.length - 1, by omega, ?_, ?_⟩
    · have he : l.length - 1 - 0 = l.length - 1 := by omega
      rw [he] at hb
      exact hb
    · have he : (l.length - 1 + 1) % l.length = 0 := by
        have he2 : l.length - 1 + 1 = l.length := by omega
        rw [he2, Nat.mod_self]
      rw [he]
      have he3 : l.length - 1 - k = 0 := by omega
      rw [he3] at ha
      exact ha

lemma mem_cyclicPairs_reverse_iff (l : List ℕ) (a b : ℕ) :
    (a, b) ∈ cyclicPairs l.reverse ↔ (b, a) ∈ cyclicPairs l := by
  constructor
  · exact cyclicPairs_reverse_swap l a b
  · intro h
    have h2 := cyclicPairs_reverse_swap l.reverse b a (by simpa using h)
    simpa using h2

lemma loopHasEdge_reverse (l : List ℕ) (e : ℕ × ℕ) :
    loopHasEdge l.reverse e = loopHasEdge l e := by
  unfold loopHasEdge
  rcases e with ⟨e1, e2⟩
  apply Bool.eq_iff_iff.mpr
  rw [List.any_eq_true, List.any_eq_true]
  constructor
  · rintro ⟨⟨a, b⟩, hab, hor⟩
    have h2 := (mem_cyclicPairs_reverse_iff l a b).mp hab
    refine ⟨(b, a), h2, ?_⟩
    rw [Bool.or_eq_true, beq_iff_eq, beq_iff_eq] at hor ⊢
    rcases hor with h | h
    · right
      have h3 : a = e1 ∧ b = e2 := Prod.mk.injEq .. ▸ h
      rw [h3.1, h3.2]
    · left
      have h3 : a = e2 ∧ b = e1 := Prod.mk.injEq .. ▸ h
      rw [h3.1, h3.2]
  · rintro ⟨⟨a, b⟩, hab, hor⟩
    have h2 := (mem_cyclicPairs_reverse_iff l b a).mpr hab
    refine ⟨(b, a), h2, ?_⟩
    rw [Bool.or_eq_true, beq_iff_eq, beq_iff_eq] at hor ⊢
    rcases hor with h | h
    · right
      have h3 : a = e1 ∧ b = e2 := Prod.mk.injEq .. ▸ h
      rw [h3.1, h3.2]
    · left
      have h3 : a = e2 ∧ b = e1 := Prod.mk.injEq .. ▸ h
      rw [h3.1, h3.2]

lemma mem_tab (n : ℕ) (f : ℕ → α) (x : α) :
    x ∈ tab n f ↔ ∃ i, i < n ∧ f i = x := by
  unfold tab
  simp [List.mem_map, List.mem_range]

lemma edgeUsed_normalsStep (flip : ℕ → Bool) (m : QMesh) (e : ℕ × ℕ) :
    edgeUsed (normalsStep flip m) e = edgeUsed m e := by
  apply Bool.eq_iff_iff.mpr
  unfold edgeUsed
  rw [List.any_eq_true, List.any_eq_true]
  constructor
  · rintro ⟨f2, hf2, helim⟩
    obtain ⟨i, hi, hFi⟩ := (mem_tab _ _ _).mp hf2
    cases hL : faceAt m i with
    | none =>
      rw [← hFi, hL] at helim
      exact Bool.noConfusion helim
    | some L =>
      rw [← hFi, hL] at helim
      have helim2 : loopHasEdge (if flip i then L.reverse else L) e = true := helim
      have hLe : loopHasEdge L e = true := by
        by_cases hfl : flip i
        · rw [if_pos hfl, loopHasEdge_reverse] at helim2
          exact helim2
        · rw [if_neg hfl] at helim2
          exact helim2
      exact ⟨some L, mem_of_faceAt_some m i L hL, hLe⟩
  · rintro ⟨f2, hf2, helim⟩
    cases f2 with
    | none => exact Bool.noConfusion helim
    | some L =>
      obtain ⟨i, hi, hgi⟩ := List.getElem_of_mem hf2
      have hL : faceAt m i = some L := by
        rw [show faceAt m i = m.faces.getD i none from rfl,
          List.getD_eq_getElem _ _ hi, hgi]
      refine ⟨(faceAt m i).map (fun L => if flip i then L.reverse else L),
        (mem_tab _ _ _).mpr ⟨i, hi, rfl⟩, ?_⟩
      rw [hL]
      have helim2 : loopHasEdge L e = true := helim
      show loopHasEdge (if flip i then L.reverse else L) e = true
      by_cases hfl : flip i
      · rw [if_pos hfl, loopHasEdge_reverse]
        exact helim2
      · rw [if_neg hfl]
        exact helim2

lemma liveFaceCount_normalsStep (flip : ℕ → Bool) (m : QMesh) :
    liveFaceCount (normalsStep flip m) = liveFaceCount m := by
  unfold liveFaceCount
  rw [← List.countP_eq_length_filter, ← List.countP_eq_length_filter]
  show List.countP _ (tab m.faces.length _) = _
  unfold tab
  rw [List.countP_map]
  have h1 : (fun i => Option.isSome ((faceAt m i).map
      (fun L => if flip i then L.reverse else L))) =
      fun i => Option.isSome (faceAt m i) := by
    funext i
    cases faceAt m i <;> rfl
  show List.countP (fun i => Option.isSome ((faceAt m i).map
      (fun L => if flip i then L.reverse else L))) (List.range m.faces.length) = _
  rw [h1]
  have h2 : List.countP (fun i => (faceAt m i).isSome) (List.range m.faces.length) =
      List.countP Option.isSome ((List.range m.faces.length).map (fun i => faceAt m i)) := by
    rw [List.countP_map]
    rfl
  rw [h2]
  have h3 : (List.range m.faces.length).map (fun i => faceAt m i) = m.faces :=
    tab_eq_self m.faces none (fun i => faceAt m i) (fun i _ => rfl)
  rw [h3]

/-- C3 (amended). A second run of the cleanup pipeline merges no vertices
(the merge step is the identity on the first run's output), deletes no
faces (the face-dedup step is the identity), deletes no edges, and leaves
the live-face count unchanged — for any winding choices the host normal
pass makes. (It may still delete vertices: see the counterexample.) -/
theorem cleanup_pipeline_second_run (m : QMesh) (t : ℚ) (flip1 flip2 : ℕ → Bool)
    (ht : 0 < t) :
    mergeStep t (cleanupPipeline t flip1 m) = cleanupPipeline t flip1 m ∧
      faceDedup t (cleanupPipeline t flip1 m) = cleanupPipeline t flip1 m ∧
      (cleanupPipeline t flip2 (cleanupPipeline t flip1 m)).edges =
        (cleanupPipeline t flip1 m).edges ∧
      liveFaceCount (cleanupPipeline t flip2 (cleanupPipeline t flip1 m)) =
        liveFaceCount (cleanupPipeline t flip1 m) := by
  have h1 : mergeStep t (cleanupPipeline t flip1 m) = cleanupPipeline t flip1 m :=
    mergeStep_eq_self _ t (keyInj_cleanupPipeline m t flip1)
  have h2 : faceDedup t (cleanupPipeline t flip1 m) = cleanupPipeline t flip1 m :=
    faceDedup_eq_self _ t (faceKeyInj_cleanupPipeline m t flip1)
  refine ⟨h1, h2, ?_, ?_⟩
  · -- the second run deletes no edges
    show (normalsStep flip2 (looseEdgeStep (looseVertStep
      (faceDedup t (mergeStep t (cleanupPipeline t flip1 m)))))).edges = _
    rw [h1, h2]
    show (looseVertStep (cleanupPipeline t flip1 m)).edges.map _ =
      (cleanupPipeline t flip1 m).edges
    apply list_map_eq_self
    intro e2 he2
    cases e2 with
    | none => rfl
    | some e3 =>
      -- every live edge of the first run's output is used by a live face
      have hused : edgeUsed (cleanupPipeline t flip1 m) e3 = true := by
        have he3 : some e3 ∈ (looseEdgeStep (looseVertStep
            (faceDedup t (mergeStep t m)))).edges := he2
        obtain ⟨e4, he4, hge4⟩ := List.mem_map.mp he3
        cases e4 with
        | none => exact Option.noConfusion hge4
        | some e5 =>
          have hg2 : (if edgeUsed (looseVertStep (faceDedup t (mergeStep t m))) e5 = true
              then some e5 else none) = some e3 := hge4
          by_cases hu : edgeUsed (looseVertStep (faceDedup t (mergeStep t m))) e5 = true
          · rw [if_pos hu] at hg2
            have he53 : e5 = e3 := Option.some.inj hg2
            show edgeUsed (normalsStep flip1 (looseEdgeStep (looseVertStep
              (faceDedup t (mergeStep t m))))) e3 = true
            rw [edgeUsed_normalsStep, ← he53]
            exact hu
          · rw [if_neg hu] at hg2
            exact Option.noConfusion hg2
      have hue : edgeUsed (looseVertStep (cleanupPipeline t flip1 m)) e3 = true := hused
      show (if edgeUsed (looseVertStep (cleanupPipeline t flip1 m)) e3 = true
        then some e3 else none) = some e3
      rw [if_pos hue]
  · -- the second run leaves the live-face count unchanged
    show liveFaceCount (normalsStep flip2 (looseEdgeStep (looseVertStep
      (faceDedup t (mergeStep t (cleanupPipeline t flip1 m)))))) = _
    rw [h1, h2, liveFaceCount_normalsStep]
    rfl

/-- Witness for C3 (amended) at the empty mesh with threshold 1. -/
theorem cleanup_pipeline_second_run_witness :
    (0 : ℚ) < 1 ∧
      (mergeStep 1 (cleanupPipeline 1 noFlip ⟨[], [], []⟩) =
          cleanupPipeline 1 noFlip ⟨[], [], []⟩ ∧
        faceDedup 1 (cleanupPipeline 1 noFlip ⟨[], [], []⟩) =
          cleanupPipeline 1 noFlip ⟨[], [], []⟩ ∧
        (cleanupPipeline 1 noFlip (cleanupPipeline 1 noFlip ⟨[], [], []⟩)).edges =
          (cleanupPipeline 1 noFlip ⟨[], [], []⟩).edges ∧
        liveFaceCount (cleanupPipeline 1 noFlip (cleanupPipeline 1 noFlip ⟨[], [], []⟩)) =
          liveFaceCount (cleanupPipeline 1 noFlip ⟨[], [], []⟩)) :=
  ⟨by norm_num, cleanup_pipeline_second_run ⟨[], [], []⟩ 1 noFlip noFlip (by norm_num)⟩

/-- A mesh holding a single loose edge between two distinct vertices. -/
def looseEdgeMesh : QMesh where
  verts := [some (0, 0, 0), some (1, 0, 0)]
  edges := [some (0, 1)]
  faces := []


/-- First cleanup run on `looseEdgeMesh`: only the loose edge is deleted;
both vertices survive because they were not loose when step 3 ran. -/
lemma cleanup_looseEdgeMesh_first :
    cleanupPipeline 1 noFlip looseEdgeMesh =
      ⟨[some (0, 0, 0), some (1, 0, 0)], [none], []⟩ := by
  norm_num [cleanupPipeline, mergeStep, faceDedup, looseVertStep, looseEdgeStep,
    normalsStep, looseEdgeMesh, tab, vertAt, faceAt, canon, firstLive, vkeyF, pyRound,
    vertUsed, edgeUsed, noFlip, List.range_succ, Prod.mk.injEq]
  all_goals decide

/-- Second cleanup run: the two vertices orphaned by the first run's
loose-edge deletion are now loose and get deleted. -/
lemma cleanup_looseEdgeMesh_second :
    cleanupPipeline 1 noFlip (⟨[some (0, 0, 0), some (1, 0, 0)], [none], []⟩ : QMesh) =
      ⟨[none, none], [none], []⟩ := by
  norm_num [cleanupPipeline, mergeStep, faceDedup, looseVertStep, looseEdgeStep,
    normalsStep, tab, vertAt, faceAt, canon, firstLive, vkeyF, pyRound,
    vertUsed, edgeUsed, noFlip, List.range_succ, Prod.mk.injEq]
  all_goals decide

/-- C3 counterexample. The pipeline is not idempotent as claimed: on a mesh
with a single loose edge, the first run keeps both vertices (they are only
orphaned by the loose-edge step, which runs after the loose-vertex step),
and the second run then deletes two additional vertices. -/
theorem cleanup_pipeline_not_idempotent :
    liveVertCount (cleanupPipeline 1 noFlip looseEdgeMesh) = 2 ∧
      liveVertCount (cleanupPipeline 1 noFlip (cleanupPipeline 1 noFlip looseEdgeMesh)) = 0 := by
  rw [cleanup_looseEdgeMesh_first, cleanup_looseEdgeMesh_second]
  constructor <;> rfl

noncomputable section

/-- 3-vector over the reals (the source computes with `mathutils.Vector`;
normalization involves a square root, so the embedding is real-valued). -/
@[ext]
structure Vec3 where
  x : ℝ
  y : ℝ
  z : ℝ

def vadd (a b : Vec3) : Vec3 := ⟨a.x + b.x, a.y + b.y, a.z + b.z⟩

def vsub (a b : Vec3) : Vec3 := ⟨a.x - b.x, a.y - b.y, a.z - b.z⟩

def vneg (a : Vec3) : Vec3 := ⟨-a.x, -a.y, -a.z⟩

def vdiv (a : Vec3) (r : ℝ) : Vec3 := ⟨a.x / r, a.y / r, a.z / r⟩

def dot (a b : Vec3) : ℝ := a.x * b.x + a.y * b.y + a.z * b.z

def cross (a b : Vec3) : Vec3 :=
  ⟨a.y * b.z - a.z * b.y, a.z * b.x - a.x * b.z, a.x * b.y - a.y * b.x⟩

/-- `mathutils` `.normalized()`: divide by the euclidean length (a zero
vector stays zero, matching division by zero in ℝ). -/
def vnormalize (v : Vec3) : Vec3 :=
  ⟨v.x / Real.sqrt (dot v v), v.y / Real.sqrt (dot v v), v.z / Real.sqrt (dot v v)⟩

/-- Python `sum(verts, Vector((0,0,0)))`: left fold of vector addition. -/
def vsum (l : List Vec3) : Vec3 := l.foldl vadd ⟨0, 0, 0⟩

/-- The 2D cross product helper `cross2d` of `is_concave`. -/
def cross2d (p1 p2 p3 : ℝ × ℝ) : ℝ :=
  (p2.1 - p1.1) * (p3.2 - p2.2) - (p2.2 - p1.2) * (p3.1 - p2.1)

/-- The centroid/basis/projection block of `is_concave`: project every
vertex into the 2D basis perpendicular to the face normal. -/
def projPts (verts : List Vec3) (normal : Vec3) : List (ℝ × ℝ) :=
  let center := vdiv (vsum verts) (verts.length : ℝ)
  let arb : Vec3 := if |normal.x| < 1/2 then ⟨1, 0, 0⟩ else ⟨0, 1, 0⟩
  let u := vnormalize (cross normal arb)
  let v := vnormalize (cross normal u)
  verts.map (fun w => (dot (vsub w center) u, dot (vsub w center) v))

/-- The turn signs of a projected point cycle (the `signs` list of
`is_concave`). -/
def signsOf (pts : List (ℝ × ℝ)) : List ℝ :=
  (List.range pts.length).map (fun i =>
    cross2d (pts.getD i (0, 0)) (pts.getD ((i + 1) % pts.length) (0, 0))
      (pts.getD ((i + 2) % pts.length) (0, 0)))

def concaveSigns (verts : List Vec3) (normal : Vec3) : List ℝ :=
  signsOf (projPts verts normal)

/-- The non-shortcut branch of `is_concave`: the face is concave iff the
turn signs are neither all nonnegative nor all nonpositive. -/
def concaveBody (verts : List Vec3) (normal : Vec3) : Prop :=
  ¬ ((∀ s ∈ concaveSigns verts normal, 0 ≤ s) ∨
     (∀ s ∈ concaveSigns verts normal, s ≤ 0))

/-- `is_concave(f)`: faces with fewer than 4 loop vertices return false
immediately; otherwise the projected-sign test runs. -/
def isConcave (verts : List Vec3) (normal : Vec3) : Prop :=
  if verts.length < 4 then False
  else concaveBody verts normal

/-- C4. A face whose loop has fewer than 4 vertices is never reported
concave: `is_concave` returns false immediately. -/
theorem is_concave_short_loop_false (verts : List Vec3) (normal : Vec3)
    (h : verts.length < 4) : ¬ isConcave verts normal := by
  simp [isConcave, h]

/-- Witness for C4 at a concrete triangle. -/
theorem is_concave_short_loop_false_witness :
    ([⟨0, 0, 0⟩, ⟨1, 0, 0⟩, ⟨0, 1, 0⟩] : List Vec3).length < 4 ∧
      ¬ isConcave [⟨0, 0, 0⟩, ⟨1, 0, 0⟩, ⟨0, 1, 0⟩] ⟨0, 0, 1⟩ :=
  ⟨by norm_num, is_concave_short_loop_false _ _ (by norm_num)⟩

lemma foldl_vadd_eq (l : List Vec3) :
    ∀ a : Vec3, l.foldl vadd a =
      ⟨a.x + (l.map Vec3.x).sum, a.y + (l.map Vec3.y).sum, a.z + (l.map Vec3.z).sum⟩ := by
  induction l with
  | nil => intro a; ext <;> simp
  | cons v l ih =>
    intro a
    rw [List.foldl_cons, ih]
    ext <;> simp [vadd] <;> ring

lemma vsum_perm (l l2 : List Vec3) (h : l.Perm l2) : vsum l = vsum l2 := by
  unfold vsum
  rw [foldl_vadd_eq, foldl_vadd_eq]
  rw [(h.map Vec3.x).sum_eq, (h.map Vec3.y).sum_eq, (h.map Vec3.z).sum_eq]

lemma cross_vneg_left (a b : Vec3) : cross (vneg a) b = vneg (cross a b) := by
  ext <;> simp [cross, vneg] <;> ring

lemma cross_vneg_vneg (a b : Vec3) : cross (vneg a) (vneg b) = cross a b := by
  ext <;> simp [cross, vneg]

lemma dot_vneg_vneg (a b : Vec3) : dot (vneg a) (vneg b) = dot a b := by
  simp only [dot, vneg]
  ring

lemma vnormalize_vneg (v : Vec3) : vnormalize (vneg v) = vneg (vnormalize v) := by
  unfold vnormalize
  rw [dot_vneg_vneg]
  ext <;> simp [vneg] <;> ring

lemma dot_vneg_right (a b : Vec3) : dot a (vneg b) = -dot a b := by
  simp only [dot, vneg]
  ring

lemma signsOf_length (pts : List (ℝ × ℝ)) : (signsOf pts).length = pts.length := by
  simp [signsOf]

lemma projPts_length (verts : List Vec3) (normal : Vec3) :
    (projPts verts normal).length = verts.length := by
  simp [projPts]

lemma forall_mem_range_map (n : ℕ) (g : ℕ → ℝ) (P : ℝ → Prop) :
    (∀ s ∈ (List.range n).map g, P s) ↔ ∀ i, i < n → P (g i) := by
  simp [List.mem_map, List.mem_range]

lemma list_eq_of_getD (l1 l2 : List α) (d : α) (hlen : l1.length = l2.length)
    (h : ∀ i, i < l1.length → l1.getD i d = l2.getD i d) : l1 = l2 := by
  apply List.ext_getElem hlen
  intro i h1 h2
  have h3 := h i h1
  rw [List.getD_eq_getElem _ _ h1, List.getD_eq_getElem _ _ h2] at h3
  exact h3

lemma getD_rotate (l : List α) (d : α) (k i : ℕ) (h : i < l.length) :
    (l.rotate k).getD i d = l.getD ((i + k) % l.length) d := by
  rw [List.getD_eq_getElem _ _ (by simpa using h),
    List.getD_eq_getElem _ _ (Nat.mod_lt _ (by omega))]
  exact List.getElem_rotate l k i (by simpa using h)

lemma signsOf_getD (pts : List (ℝ × ℝ)) (i : ℕ) (h : i < pts.length) :
    (signsOf pts).getD i 0 =
      cross2d (pts.getD i (0, 0)) (pts.getD ((i + 1) % pts.length) (0, 0))
        (pts.getD ((i + 2) % pts.length) (0, 0)) :=
  tab_getD pts.length _ i h 0

lemma signsOf_rotate (pts : List (ℝ × ℝ)) (k : ℕ) :
    signsOf (pts.rotate k) = (signsOf pts).rotate k := by
  rcases Nat.eq_zero_or_pos pts.length with h0 | h0
  · rw [List.length_eq_zero] at h0
    subst h0
    simp [signsOf]
  have hrotlen : (pts.rotate k).length = pts.length := List.length_rotate pts k
  apply list_eq_of_getD _ _ 0
  · simp [signsOf_length]
  intro i hi
  have hn : i < pts.length := by simpa [signsOf_length] using hi
  rw [signsOf_getD _ i (by omega)]
  rw [getD_rotate _ 0 k i (by simpa [signsOf_length] using hn)]
  rw [signsOf_length]
  rw [signsOf_getD _ ((i + k) % pts.length) (Nat.mod_lt _ h0)]
  rw [hrotlen]
  rw [getD_rotate _ _ k i hn, getD_rotate _ _ k ((i + 1) % pts.length) (Nat.mod_lt _ h0),
    getD_rotate _ _ k ((i + 2) % pts.length) (Nat.mod_lt _ h0)]
  have e1 : ((i + 1) % pts.length + k) % pts.length =
      ((i + k) % pts.length + 1) % pts.length := by
    rw [Nat.mod_add_mod, Nat.mod_add_mod]
    congr 1
    omega
  have e2 : ((i + 2) % pts.length + k) % pts.length =
      ((i + k) % pts.length + 2) % pts.length := by
    rw [Nat.mod_add_mod, Nat.mod_add_mod]
    congr 1
    omega
  rw [e1, e2]

lemma projPts_rotate (verts : List Vec3) (normal : Vec3) (k : ℕ) :
    projPts (verts.rotate k) normal = (projPts verts normal).rotate k := by
  simp only [projPts, List.length_rotate]
  rw [vsum_perm (verts.rotate k) verts (List.rotate_perm verts k)]
  exact List.map_rotate _ _ _

lemma projPts_reverse_vneg (verts : List Vec3) (normal : Vec3) :
    projPts verts.reverse (vneg normal) =
      ((projPts verts normal).map (fun p => (-p.1, p.2))).reverse := by
  simp only [projPts, List.length_reverse]
  rw [vsum_perm verts.reverse verts (List.reverse_perm verts)]
  have harb : |(vneg normal).x| = |normal.x| := by
    show |(-normal.x)| = |normal.x|
    exact abs_neg normal.x
  rw [harb]
  rw [cross_vneg_left, vnormalize_vneg, cross_vneg_vneg]
  rw [List.map_map, ← List.map_reverse]
  apply List.map_congr_left
  intro w _
  show (dot (vsub w _) (vneg (vnormalize (cross normal _))),
      dot (vsub w _) (vnormalize (cross normal (vnormalize (cross normal _))))) = _
  rw [dot_vneg_right]
  rfl

lemma cross2d_mirror (a b c : ℝ × ℝ) :
    cross2d (-a.1, a.2) (-b.1, b.2) (-c.1, c.2) = cross2d c b a := by
  simp only [cross2d]
  ring

/-- The index permutation matching the turn-sign at position `i` of a
reversed loop with the turn-sign of the original loop. -/
def revIdx (n i : ℕ) : ℕ :=
  if i + 2 < n then n - 3 - i else if i + 2 = n then n - 1 else n - 2

lemma revIdx_lt (n i : ℕ) (h0 : 0 < n) : revIdx n i < n := by
  unfold revIdx
  split
  · omega
  · split <;> omega

lemma revIdx_invol (n i : ℕ) (h : i < n) (h4 : 4 ≤ n) : revIdx n (revIdx n i) = i := by
  by_cases h1 : i + 2 < n
  · have e1 : revIdx n i = n - 3 - i := by
      unfold revIdx
      rw [if_pos h1]
    have h2 : (n - 3 - i) + 2 < n := by omega
    rw [e1]
    unfold revIdx
    rw [if_pos h2]
    omega
  · by_cases h2 : i + 2 = n
    · have e1 : revIdx n i = n - 1 := by
        unfold revIdx
        rw [if_neg h1, if_pos h2]
      rw [e1]
      unfold revIdx
      rw [if_neg (by omega), if_neg (by omega)]
      omega
    · have e1 : revIdx n i = n - 2 := by
        unfold revIdx
        rw [if_neg h1, if_neg h2]
      rw [e1]
      unfold revIdx
      rw [if_neg (by omega), if_pos (by omega)]
      omega

lemma signsOf_mirror_reverse (pts : List (ℝ × ℝ)) (h4 : 4 ≤ pts.length) (i : ℕ)
    (h : i < pts.length) :
    (signsOf ((pts.map (fun p => (-p.1, p.2))).reverse)).getD i 0 =
      (signsOf pts).getD (revIdx pts.length i) 0 := by
  have hlen : ((pts.map (fun p : ℝ × ℝ => (-p.1, p.2))).reverse).length = pts.length := by
    simp
  have hgetDrev : ∀ j, j < pts.length →
      ((pts.map (fun p : ℝ × ℝ => (-p.1, p.2))).reverse).getD j (0, 0) =
        (-(pts.getD (pts.length - 1 - j) (0, 0)).1, (pts.getD (pts.length - 1 - j) (0, 0)).2) := by
    intro j hj
    rw [getD_reverse _ (0, 0) j (by simpa using hj)]
    rw [List.length_map]
    rw [List.getD_eq_getElem _ _ (by simp; omega), List.getD_eq_getElem _ _ (by omega)]
    rw [List.getElem_map]
  rw [signsOf_getD _ i (by omega)]
  rw [hlen]
  rw [hgetDrev i h, hgetDrev ((i + 1) % pts.length) (Nat.mod_lt _ (by omega)),
    hgetDrev ((i + 2) % pts.length) (Nat.mod_lt _ (by omega))]
  rw [cross2d_mirror]
  rw [signsOf_getD _ (revIdx pts.length i) (revIdx_lt _ _ (by omega))]
  by_cases h1 : i + 2 < pts.length
  · have hr : revIdx pts.length i = pts.length - 3 - i := by
      unfold revIdx
      rw [if_pos h1]
    have e2 : (i + 2) % pts.length = i + 2 := Nat.mod_eq_of_lt h1
    have e1 : (i + 1) % pts.length = i + 1 := Nat.mod_eq_of_lt (by omega)
    have f0 : pts.length - 1 - (i + 2) = pts.length - 3 - i := by omega
    have f1 : pts.length - 1 - (i + 1) = (pts.length - 3 - i + 1) % pts.length := by
      rw [Nat.mod_eq_of_lt (by omega)]
      omega
    have f2 : pts.length - 1 - i = (pts.length - 3 - i + 2) % pts.length := by
      rw [Nat.mod_eq_of_lt (by omega)]
      omega
    rw [hr, e1, e2, f0, f1, f2]
  · by_cases h2 : i + 2 = pts.length
    · have hr : revIdx pts.length i = pts.length - 1 := by
        unfold revIdx
        rw [if_neg h1, if_pos h2]
      have e2 : (i + 2) % pts.length = 0 := by
        rw [h2, Nat.mod_self]
      have e1 : (i + 1) % pts.length = i + 1 := Nat.mod_eq_of_lt (by omega)
      have f0 : pts.length - 1 - 0 = pts.length - 1 := by omega
      have f1 : pts.length - 1 - (i + 1) = (pts.length - 1 + 1) % pts.length := by
        have g1 : pts.length - 1 + 1 = pts.length := by omega
        rw [g1, Nat.mod_self]
        omega
      have f2 : pts.length - 1 - i = (pts.length - 1 + 2) % pts.length := by
        have g1 : pts.length - 1 + 2 = 1 + pts.length := by omega
        rw [g1, Nat.add_mod_right, Nat.mod_eq_of_lt (by omega)]
        omega
      rw [hr, e1, e2, f0, f1, f2]
    · have h3 : i + 1 = pts.length := by omega
      have hr : revIdx pts.length i = pts.length - 2 := by
        unfold revIdx
        rw [if_neg h1, if_neg h2]
      have e1 : (i + 1) % pts.length = 0 := by
        rw [h3, Nat.mod_self]
      have e2 : (i + 2) % pts.length = 1 := by
        have g1 : i + 2 = 1 + pts.length := by omega
        rw [g1, Nat.add_mod_right, Nat.mod_eq_of_lt (by omega)]
      have f0 : pts.length - 1 - 1 = pts.length - 2 := by omega
      have f1 : pts.length - 1 - 0 = (pts.length - 2 + 1) % pts.length := by
        rw [Nat.mod_eq_of_lt (by omega)]
        omega
      have f2 : pts.length - 1 - i = (pts.length - 2 + 2) % pts.length := by
        have g1 : pts.length - 2 + 2 = pts.length := by omega
        rw [g1, Nat.mod_self]
        omega
      rw [hr, e1, e2, f0, f1, f2]

lemma forall_mem_transfer (l1 l0 : List ℝ) (n : ℕ) (hl1 : l1.length = n)
    (hl0 : l0.length = n) (φ : ℕ → ℕ) (hlt : ∀ i, i < n → φ i < n)
    (hinv : ∀ i, i < n → φ (φ i) = i)
    (hpt : ∀ i, i < n → l1.getD i 0 = l0.getD (φ i) 0) (P : ℝ → Prop) :
    (∀ s ∈ l1, P s) ↔ (∀ s ∈ l0, P s) := by
  constructor
  · intro h s hs
    obtain ⟨j, hj, hgj⟩ := List.getElem_of_mem hs
    have hj2 : j < n := by omega
    have hval : l1.getD (φ j) 0 = s := by
      rw [hpt (φ j) (hlt j hj2), hinv j hj2, List.getD_eq_getElem _ _ hj, hgj]
    have hphi := hlt j hj2
    have hmem : l1.getD (φ j) 0 ∈ l1 := by
      rw [List.getD_eq_getElem _ _ (by omega)]
      exact List.getElem_mem _
    rw [← hval]
    exact h _ hmem
  · intro h s hs
    obtain ⟨j, hj, hgj⟩ := List.getElem_of_mem hs
    have hj2 : j < n := by omega
    have hval : l0.getD (φ j) 0 = s := by
      rw [← hpt j hj2, List.getD_eq_getElem _ _ hj, hgj]
    have hphi := hlt j hj2
    have hmem : l0.getD (φ j) 0 ∈ l0 := by
      rw [List.getD_eq_getElem _ _ (by omega)]
      exact List.getElem_mem _
    rw [← hval]
    exact h _ hmem

/-- C5. `is_concave` is invariant under cyclic rotation of the vertex loop
and under mirror-reversal (reversing the loop reverses the derived face
normal). -/
theorem is_concave_rotation_reversal_invariant (verts : List Vec3) (normal : Vec3)
    (k : ℕ) :
    (isConcave (verts.rotate k) normal ↔ isConcave verts normal) ∧
      (isConcave verts.reverse (vneg normal) ↔ isConcave verts normal) := by
  constructor
  · unfold isConcave
    rw [List.length_rotate]
    by_cases h4 : verts.length < 4
    · rw [if_pos h4, if_pos h4]
    · rw [if_neg h4, if_neg h4]
      unfold concaveBody concaveSigns
      rw [projPts_rotate, signsOf_rotate]
      simp only [List.mem_rotate]
  · unfold isConcave
    rw [List.length_reverse]
    by_cases h4 : verts.length < 4
    · rw [if_pos h4, if_pos h4]
    · rw [if_neg h4, if_neg h4]
      unfold concaveBody concaveSigns
      rw [projPts_reverse_vneg]
      have hn4 : 4 ≤ (projPts verts normal).length := by
        rw [projPts_length]
        omega
      have hlen1 : (signsOf (((projPts verts normal).map
          (fun p => (-p.1, p.2))).reverse)).length = (projPts verts normal).length := by
        rw [signsOf_length]
        simp
      have hlen0 : (signsOf (projPts verts normal)).length =
          (projPts verts normal).length := signsOf_length _
      have hA := forall_mem_transfer _ _ _ hlen1 hlen0 (revIdx (projPts verts normal).length)
        (fun i hi => revIdx_lt _ _ (by omega)) (fun i hi => revIdx_invol _ _ hi hn4)
        (fun i hi => signsOf_mirror_reverse _ hn4 i hi) (fun s => 0 ≤ s)
      have hB := forall_mem_transfer _ _ _ hlen1 hlen0 (revIdx (projPts verts normal).length)
        (fun i hi => revIdx_lt _ _ (by omega)) (fun i hi => revIdx_invol _ _ hi hn4)
        (fun i hi => signsOf_mirror_reverse _ hn4 i hi) (fun s => s ≤ 0)
      rw [hA, hB]

/-- A planar dart (concave) quad in the z = 0 plane. -/
def dartQuad : List Vec3 := [⟨0, 0, 0⟩, ⟨4, 0, 0⟩, ⟨1, 1, 0⟩, ⟨0, 4, 0⟩]

lemma concaveSigns_dartQuad : concaveSigns dartQuad ⟨0, 0, 1⟩ = [4, -8, 4, 16] := by
  have hsum : vsum dartQuad = ⟨5, 5, 0⟩ := by
    unfold dartQuad vsum
    simp only [List.foldl_cons, List.foldl_nil]
    ext <;> simp [vadd] <;> norm_num
  unfold concaveSigns projPts
  rw [hsum]
  norm_num [dartQuad, signsOf, vdiv, vsub, dot, cross, vnormalize, cross2d,
    Real.sqrt_one, List.range_succ, abs_of_nonneg]

/-- C6 counterexample. A quad (loop length exactly 4) is NOT returned as
convex without verification: the guard is `len(verts) < 4`, so quads run
the full test and a planar dart quad is classified concave. -/
theorem is_concave_dart_quad_true :
    dartQuad.length = 4 ∧ isConcave dartQuad ⟨0, 0, 1⟩ := by
  refine ⟨rfl, ?_⟩
  unfold isConcave
  rw [if_neg (by norm_num [dartQuad])]
  unfold concaveBody
  rw [concaveSigns_dartQuad]
  intro h
  rcases h with h | h
  · have := h (-8) (by norm_num)
    norm_num at this
  · have := h 4 (by norm_num)
    norm_num at this

/-- C6 (amended). Quads are not short-circuited: for every face whose loop
has exactly 4 vertices, `is_concave` runs the full centroid/projection test
(and can return true, e.g. on `dartQuad`). -/
theorem is_concave_quad_runs_full_test (verts : List Vec3) (normal : Vec3)
    (h : verts.length = 4) :
    isConcave verts normal ↔ concaveBody verts normal := by
  unfold isConcave
  rw [if_neg (by omega)]

/-- Witness for C6 (amended) at the dart quad. -/
theorem is_concave_quad_runs_full_test_witness :
    dartQuad.length = 4 ∧
      (isConcave dartQuad ⟨0, 0, 1⟩ ↔ concaveBody dartQuad ⟨0, 0, 1⟩) :=
  ⟨rfl, is_concave_quad_runs_full_test dartQuad ⟨0, 0, 1⟩ rfl⟩

end

/-- Per-face session data: loop length, non-manifold/concave classification,
hide and select flags. -/
structure FaceI where
  len : ℕ
  nonManifold : Bool
  concave : Bool
  hide : Bool
  sel : Bool
  deriving DecidableEq

structure VertI where
  sel : Bool
  linkFaces : ℕ
  deriving DecidableEq

structure EdgeI where
  v1 : ℕ
  v2 : ℕ
  linkFaces : ℕ
  sel : Bool
  deriving DecidableEq

/-- Edit-session state visible to the isolate operators: the active mesh's
elements, the viewport shading type, the selection-mode triple, and the
scene properties `active_isolate`, `original_shading`,
`original_select_mode` and `show_wire_isolate`. -/
structure SceneState where
  verts : List VertI
  edges : List EdgeI
  faces : List FaceI
  shading : String
  selectMode : Bool × Bool × Bool
  activeIsolate : String
  originalShading : String
  originalSelectMode : Bool × Bool × Bool
  showWire : Bool
  deriving DecidableEq

inductive OpStatus where
  | finished
  | cancelled
  deriving DecidableEq

/-- `bpy.ops.mesh.reveal()` followed by `select_all(action='DESELECT')`. -/
def revealDeselect (s : SceneState) : SceneState :=
  { s with
    verts := s.verts.map (fun v => { v with sel := false }),
    edges := s.edges.map (fun e => { e with sel := false }),
    faces := s.faces.map (fun f => { f with hide := false, sel := false }) }

/-- The face-selection predicate of the `toggle_isolate_faces` branches. -/
def facePred (faceType : String) (f : FaceI) : Bool :=
  if faceType = "NGONS" then decide (4 < f.len)
  else if faceType = "TRIS" then decide (f.len = 3)
  else if faceType = "NON_MANIFOLD" then f.nonManifold
  else if faceType = "CONCAVE" then f.concave
  else false

/-- The revert branch of `toggle_isolate_faces` (same isolate clicked):
reveal, deselect, restore saved shading and selection mode, clear the
active isolate. -/
def isolateRevert (s : SceneState) : SceneState :=
  { revealDeselect s with
    shading := s.originalShading,
    selectMode := s.originalSelectMode,
    activeIsolate := "" }

/-- The enter branch of `toggle_isolate_faces`: optionally reveal/deselect,
save the (current!) shading and selection mode as originals, switch to face
select, select matching faces, optionally hide unselected, set shading. -/
def isolateEnter (s : SceneState) (faceType : String) : SceneState :=
  let anyHidden := s.faces.any (fun f => f.hide)
  let s1 := if s.activeIsolate ≠ "" ∨ anyHidden = true then revealDeselect s else s
  let faces2 := s1.faces.map (fun f => { f with sel := facePred faceType f })
  let faces3 := if s.showWire = false then
      faces2.map (fun f => if f.sel then f else { f with hide := true })
    else faces2
  { s1 with
    originalShading := s1.shading,
    originalSelectMode := s1.selectMode,
    selectMode := (false, false, true),
    faces := faces3,
    shading := if s.showWire then ("WIREFRAME") else ("SOLID"),
    activeIsolate := faceType }

/-- `toggle_isolate_faces(context, face_type)`. -/
def toggleIsolateFaces (obj : Option String) (s : SceneState) (faceType : String) :
    OpStatus × SceneState :=
  match obj with
  | none => (OpStatus.cancelled, s)
  | some objType =>
    if objType ≠ "MESH" then (OpStatus.cancelled, s)
    else if s.activeIsolate = faceType then (OpStatus.finished, isolateRevert s)
    else (OpStatus.finished, isolateEnter s faceType)

/-- `select_non_manifold_full`: deselect everything, select non-manifold
edges and their endpoint vertices plus loose vertices, then switch the
selection mode to vertex select. -/
def selectNonManifoldFull (s : SceneState) : SceneState :=
  let touches := fun i => s.edges.any (fun e =>
    decide (e.linkFaces ≠ 2) && (e.v1 == i || e.v2 == i))
  { s with
    verts := tab s.verts.length (fun i =>
      let v := s.verts.getD i ⟨false, 0⟩
      { v with sel := touches i || (v.linkFaces == 0) }),
    edges := s.edges.map (fun e =>
      { e with sel := decide (e.linkFaces ≠ 2) }),
    faces := s.faces.map (fun f => { f with sel := false }),
    selectMode := (true, false, false) }

/-- The enter branch of `MESH_OT_isolate_non_manifold.execute`: optionally
reveal/deselect, save originals, run `select_non_manifold_full` (which
switches to vertex select mode), optionally hide unselected faces, set
shading, record the active isolate. -/
def nonManifoldEnter (s : SceneState) : SceneState :=
  let anyHidden := s.faces.any (fun f => f.hide)
  let s1 := if s.activeIsolate ≠ "" ∨ anyHidden = true then revealDeselect s else s
  let s2 := { s1 with
    originalShading := s1.shading,
    originalSelectMode := s1.selectMode }
  let s3 := selectNonManifoldFull s2
  let faces4 := if s.showWire = false then
      s3.faces.map (fun f => if f.sel then f else { f with hide := true })
    else s3.faces
  { s3 with
    faces := faces4,
    shading := if s.showWire then ("WIREFRAME") else ("SOLID"),
    activeIsolate := "NON_MANIFOLD" }

/-- `MESH_OT_isolate_non_manifold.execute`: the dedicated non-manifold
isolate operator; unlike `toggle_isolate_faces` it delegates the selection
to `select_non_manifold_full`, which leaves vertex select mode active. -/
def isolateNonManifoldExec (obj : Option String) (s : SceneState) :
    OpStatus × SceneState :=
  match obj with
  | none => (OpStatus.cancelled, s)
  | some objType =>
    if objType ≠ "MESH" then (OpStatus.cancelled, s)
    else if s.activeIsolate = "NON_MANIFOLD" then (OpStatus.finished, isolateRevert s)
    else (OpStatus.finished, nonManifoldEnter s)

lemma toggle_enter (s : SceneState) (X : String) (h : s.activeIsolate ≠ X) :
    toggleIsolateFaces (some ("MESH")) s X = (OpStatus.finished, isolateEnter s X) := by
  show (if ("MESH" : String) ≠ "MESH" then (OpStatus.cancelled, s)
    else if s.activeIsolate = X then (OpStatus.finished, isolateRevert s)
    else (OpStatus.finished, isolateEnter s X)) = _
  rw [if_neg (fun hne => hne rfl), if_neg h]

lemma toggle_revert (s : SceneState) (X : String) (h : s.activeIsolate = X) :
    toggleIsolateFaces (some ("MESH")) s X = (OpStatus.finished, isolateRevert s) := by
  show (if ("MESH" : String) ≠ "MESH" then (OpStatus.cancelled, s)
    else if s.activeIsolate = X then (OpStatus.finished, isolateRevert s)
    else (OpStatus.finished, isolateEnter s X)) = _
  rw [if_neg (fun hne => hne rfl), if_pos h]

lemma isolateEnter_originalShading (s : SceneState) (X : String) :
    (isolateEnter s X).originalShading = s.shading := by
  show (if s.activeIsolate ≠ "" ∨ s.faces.any (fun f => f.hide) = true
    then revealDeselect s else s).shading = s.shading
  by_cases hc : s.activeIsolate ≠ "" ∨ s.faces.any (fun f => f.hide) = true
  · rw [if_pos hc]
    rfl
  · rw [if_neg hc]

lemma isolateEnter_originalSelectMode (s : SceneState) (X : String) :
    (isolateEnter s X).originalSelectMode = s.selectMode := by
  show (if s.activeIsolate ≠ "" ∨ s.faces.any (fun f => f.hide) = true
    then revealDeselect s else s).selectMode = s.selectMode
  by_cases hc : s.activeIsolate ≠ "" ∨ s.faces.any (fun f => f.hide) = true
  · rw [if_pos hc]
    rfl
  · rw [if_neg hc]

lemma isolateEnter_showWire (s : SceneState) (X : String) :
    (isolateEnter s X).showWire = s.showWire := by
  show (if s.activeIsolate ≠ "" ∨ s.faces.any (fun f => f.hide) = true
    then revealDeselect s else s).showWire = s.showWire
  by_cases hc : s.activeIsolate ≠ "" ∨ s.faces.any (fun f => f.hide) = true
  · rw [if_pos hc]
    rfl
  · rw [if_neg hc]


lemma isolateRevert_isolateEnter_verts (s : SceneState) (X : String) :
    (isolateRevert (isolateEnter s X)).verts =
      s.verts.map (fun v => { v with sel := false }) := by
  have h0 : (isolateRevert (isolateEnter s X)).verts =
      ((if s.activeIsolate ≠ "" ∨ (s.faces.any fun f => f.hide) = true
        then revealDeselect s else s).verts).map
        (fun v : VertI => { v with sel := false }) := rfl
  rw [h0]
  by_cases hc : s.activeIsolate ≠ "" ∨ (s.faces.any fun f => f.hide) = true
  · rw [if_pos hc]
    have h1 : (revealDeselect s).verts = s.verts.map (fun v => { v with sel := false }) := rfl
    rw [h1, List.map_map]
    rfl
  · rw [if_neg hc]

lemma isolateRevert_isolateEnter_edges (s : SceneState) (X : String) :
    (isolateRevert (isolateEnter s X)).edges =
      s.edges.map (fun e => { e with sel := false }) := by
  have h0 : (isolateRevert (isolateEnter s X)).edges =
      ((if s.activeIsolate ≠ "" ∨ (s.faces.any fun f => f.hide) = true
        then revealDeselect s else s).edges).map
        (fun e : EdgeI => { e with sel := false }) := rfl
  rw [h0]
  by_cases hc : s.activeIsolate ≠ "" ∨ (s.faces.any fun f => f.hide) = true
  · rw [if_pos hc]
    have h1 : (revealDeselect s).edges = s.edges.map (fun e => { e with sel := false }) := rfl
    rw [h1, List.map_map]
    rfl
  · rw [if_neg hc]

lemma clean_after_hide_sel (X : String) :
    ((fun f : FaceI => { f with hide := false, sel := false }) ∘
        (fun f : FaceI => if f.sel = true then f else { f with hide := true })) ∘
      (fun f : FaceI => { f with sel := facePred X f }) =
      fun f : FaceI => { f with hide := false, sel := false } := by
  funext f
  simp only [Function.comp_apply]
  split <;> rfl

lemma isolateRevert_isolateEnter_faces (s : SceneState) (X : String) :
    (isolateRevert (isolateEnter s X)).faces =
      s.faces.map (fun f => { f with hide := false, sel := false }) := by
  have h0 : (isolateRevert (isolateEnter s X)).faces =
      ((if s.showWire = false then
        (((if s.activeIsolate ≠ "" ∨ (s.faces.any fun f => f.hide) = true
          then revealDeselect s else s).faces).map
            (fun f : FaceI => { f with sel := facePred X f })).map
          (fun f : FaceI => if f.sel = true then f else { f with hide := true })
      else ((if s.activeIsolate ≠ "" ∨ (s.faces.any fun f => f.hide) = true
          then revealDeselect s else s).faces).map
            (fun f : FaceI => { f with sel := facePred X f })).map
        (fun f : FaceI => { f with hide := false, sel := false })) := rfl
  rw [h0]
  have hbase : ∀ l : List FaceI,
      ((if s.showWire = false then
          (l.map (fun f : FaceI => { f with sel := facePred X f })).map
            (fun f : FaceI => if f.sel = true then f else { f with hide := true })
        else l.map (fun f : FaceI => { f with sel := facePred X f })).map
        (fun f : FaceI => { f with hide := false, sel := false })) =
      l.map (fun f : FaceI => { f with hide := false, sel := false }) := by
    intro l
    by_cases hw : s.showWire = false
    · rw [if_pos hw, List.map_map, List.map_map, clean_after_hide_sel]
    · rw [if_neg hw, List.map_map]
      apply List.map_congr_left
      intro f _
      rfl
  rw [hbase]
  by_cases hc : s.activeIsolate ≠ "" ∨ (s.faces.any fun f => f.hide) = true
  · rw [if_pos hc]
    have h1 : (revealDeselect s).faces =
        s.faces.map (fun f => { f with hide := false, sel := false }) := rfl
    rw [h1, List.map_map]
    rfl
  · rw [if_neg hc]

/-- C7 (amended). Toggling an isolate mode twice from a no-isolate state
restores the shading mode and selection-mode triple exactly, clears the
isolate, and leaves every element visible and deselected — which equals the
pre-toggle selection/visibility exactly when nothing was hidden or selected
before the first toggle (otherwise the prior selection/hiding is lost). -/
theorem toggle_isolate_roundtrip (s : SceneState) (X : String)
    (hX : X = "TRIS" ∨ X = "NGONS" ∨ X = "NON_MANIFOLD" ∨ X = "CONCAVE")
    (h0 : s.activeIsolate = "") :
    (toggleIsolateFaces (some ("MESH"))
        (toggleIsolateFaces (some ("MESH")) s X).2 X).2.shading = s.shading ∧
      (toggleIsolateFaces (some ("MESH"))
        (toggleIsolateFaces (some ("MESH")) s X).2 X).2.selectMode = s.selectMode ∧
      (toggleIsolateFaces (some ("MESH"))
        (toggleIsolateFaces (some ("MESH")) s X).2 X).2.activeIsolate = "" ∧
      (∀ f ∈ (toggleIsolateFaces (some ("MESH"))
        (toggleIsolateFaces (some ("MESH")) s X).2 X).2.faces,
          f.hide = false ∧ f.sel = false) ∧
      ((∀ f ∈ s.faces, f.hide = false ∧ f.sel = false) →
        (∀ v ∈ s.verts, v.sel = false) →
        (∀ e ∈ s.edges, e.sel = false) →
        (toggleIsolateFaces (some ("MESH"))
            (toggleIsolateFaces (some ("MESH")) s X).2 X).2.verts = s.verts ∧
          (toggleIsolateFaces (some ("MESH"))
            (toggleIsolateFaces (some ("MESH")) s X).2 X).2.edges = s.edges ∧
          (toggleIsolateFaces (some ("MESH"))
            (toggleIsolateFaces (some ("MESH")) s X).2 X).2.faces = s.faces) := by
  have hXne : X ≠ "" := by
    rcases hX with rfl | rfl | rfl | rfl <;> decide
  have h1 : toggleIsolateFaces (some ("MESH")) s X = (OpStatus.finished, isolateEnter s X) :=
    toggle_enter s X (by rw [h0]; exact fun he => hXne he.symm)
  have h2 : toggleIsolateFaces (some ("MESH")) (isolateEnter s X) X =
      (OpStatus.finished, isolateRevert (isolateEnter s X)) :=
    toggle_revert _ X rfl
  rw [h1]
  show (toggleIsolateFaces (some ("MESH")) (isolateEnter s X) X).2.shading = _ ∧ _
  rw [h2]
  refine ⟨?_, ?_, rfl, ?_, ?_⟩
  · show (isolateEnter s X).originalShading = s.shading
    exact isolateEnter_originalShading s X
  · show (isolateEnter s X).originalSelectMode = s.selectMode
    exact isolateEnter_originalSelectMode s X
  · intro f hf
    rw [isolateRevert_isolateEnter_faces] at hf
    obtain ⟨g, _, rfl⟩ := List.mem_map.mp hf
    exact ⟨rfl, rfl⟩
  · intro hf hv he
    refine ⟨?_, ?_, ?_⟩
    · rw [isolateRevert_isolateEnter_verts]
      apply list_map_eq_self
      intro v hv2
      have hs := hv v hv2
      cases v
      simp_all
    · rw [isolateRevert_isolateEnter_edges]
      apply list_map_eq_self
      intro e he2
      have hs := he e he2
      cases e
      simp_all
    · rw [isolateRevert_isolateEnter_faces]
      apply list_map_eq_self
      intro f hf2
      have hs := hf f hf2
      cases f
      simp_all

/-- A session state with one selected triangle face and no isolate active. -/
def selState : SceneState where
  verts := []
  edges := []
  faces := [⟨3, false, false, false, true⟩]
  shading := "SOLID"
  selectMode := (true, false, false)
  activeIsolate := ""
  originalShading := "SOLID"
  originalSelectMode := (true, false, false)
  showWire := true

/-- C7 counterexample. A toggle round-trip does NOT restore the mesh
selection for every no-isolate starting state: a face selected before the
first toggle is deselected after the second. -/
theorem toggle_isolate_roundtrip_loses_selection :
    selState.activeIsolate = "" ∧
      (toggleIsolateFaces (some ("MESH"))
        (toggleIsolateFaces (some ("MESH")) selState ("TRIS")).2 ("TRIS")).2.faces ≠
      selState.faces := by
  constructor
  · rfl
  · decide

/-- Witness for C7 (amended) at a clean concrete state. -/
theorem toggle_isolate_roundtrip_witness :
    (("TRIS" : String) = "TRIS" ∨ ("TRIS" : String) = "NGONS" ∨
        ("TRIS" : String) = "NON_MANIFOLD" ∨ ("TRIS" : String) = "CONCAVE") ∧
      ({ selState with faces := [] } : SceneState).activeIsolate = "" ∧
      ((toggleIsolateFaces (some ("MESH"))
          (toggleIsolateFaces (some ("MESH")) { selState with faces := [] } ("TRIS")).2
          ("TRIS")).2.shading = ({ selState with faces := [] } : SceneState).shading ∧
        (toggleIsolateFaces (some ("MESH"))
          (toggleIsolateFaces (some ("MESH")) { selState with faces := [] } ("TRIS")).2
          ("TRIS")).2.selectMode = ({ selState with faces := [] } : SceneState).selectMode ∧
        (toggleIsolateFaces (some ("MESH"))
          (toggleIsolateFaces (some ("MESH")) { selState with faces := [] } ("TRIS")).2
          ("TRIS")).2.activeIsolate = "" ∧
        (∀ f ∈ (toggleIsolateFaces (some ("MESH"))
          (toggleIsolateFaces (some ("MESH")) { selState with faces := [] } ("TRIS")).2
          ("TRIS")).2.faces, f.hide = false ∧ f.sel = false) ∧
        ((∀ f ∈ ({ selState with faces := [] } : SceneState).faces,
            f.hide = false ∧ f.sel = false) →
          (∀ v ∈ ({ selState with faces := [] } : SceneState).verts, v.sel = false) →
          (∀ e ∈ ({ selState with faces := [] } : SceneState).edges, e.sel = false) →
          (toggleIsolateFaces (some ("MESH"))
            (toggleIsolateFaces (some ("MESH")) { selState with faces := [] } ("TRIS")).2
            ("TRIS")).2.verts = ({ selState with faces := [] } : SceneState).verts ∧
          (toggleIsolateFaces (some ("MESH"))
            (toggleIsolateFaces (some ("MESH")) { selState with faces := [] } ("TRIS")).2
            ("TRIS")).2.edges = ({ selState with faces := [] } : SceneState).edges ∧
          (toggleIsolateFaces (some ("MESH"))
            (toggleIsolateFaces (some ("MESH")) { selState with faces := [] } ("TRIS")).2
            ("TRIS")).2.faces = ({ selState with faces := [] } : SceneState).faces)) :=
  ⟨Or.inl rfl, rfl,
    toggle_isolate_roundtrip { selState with faces := [] } ("TRIS") (Or.inl rfl) rfl⟩

lemma isolateEnter_shading (s : SceneState) (X : String) :
    (isolateEnter s X).shading = if s.showWire then ("WIREFRAME") else ("SOLID") := rfl

lemma isolateEnter_selectMode (s : SceneState) (X : String) :
    (isolateEnter s X).selectMode = (false, false, true) := rfl

lemma isolateEnter_activeIsolate (s : SceneState) (X : String) :
    (isolateEnter s X).activeIsolate = X := rfl

/-- C8 (amended). A chain B → C → (toggle C) from a no-isolate state does
NOT restore the pre-chain shading and selection mode: entering C overwrites
the saved originals with the state left by B, so the final revert restores
the in-isolate-B state (WIREFRAME or SOLID shading per the wireframe flag,
and the face-based selection triple), not the pre-chain state. -/
theorem isolate_chain_restores_intermediate (s : SceneState) (B C2 : String)
    (hB : B = "TRIS" ∨ B = "NGONS" ∨ B = "NON_MANIFOLD" ∨ B = "CONCAVE")
    (hBC : B ≠ C2) (h0 : s.activeIsolate = "") :
    (toggleIsolateFaces (some ("MESH"))
        (toggleIsolateFaces (some ("MESH"))
          (toggleIsolateFaces (some ("MESH")) s B).2 C2).2 C2).2.shading =
      (if s.showWire then ("WIREFRAME") else ("SOLID")) ∧
      (toggleIsolateFaces (some ("MESH"))
        (toggleIsolateFaces (some ("MESH"))
          (toggleIsolateFaces (some ("MESH")) s B).2 C2).2 C2).2.selectMode =
      (false, false, true) := by
  have hBne : B ≠ "" := by
    rcases hB with rfl | rfl | rfl | rfl <;> decide
  have h1 : toggleIsolateFaces (some ("MESH")) s B = (OpStatus.finished, isolateEnter s B) :=
    toggle_enter s B (by rw [h0]; exact fun he => hBne he.symm)
  have h2 : toggleIsolateFaces (some ("MESH")) (isolateEnter s B) C2 =
      (OpStatus.finished, isolateEnter (isolateEnter s B) C2) :=
    toggle_enter _ C2 (by rw [isolateEnter_activeIsolate]; exact hBC)
  have h3 : toggleIsolateFaces (some ("MESH")) (isolateEnter (isolateEnter s B) C2) C2 =
      (OpStatus.finished, isolateRevert (isolateEnter (isolateEnter s B) C2)) :=
    toggle_revert _ C2 (isolateEnter_activeIsolate _ C2)
  rw [h1]
  show (toggleIsolateFaces (some ("MESH"))
      (toggleIsolateFaces (some ("MESH")) (isolateEnter s B) C2).2 C2).2.shading = _ ∧ _
  rw [h2]
  show (toggleIsolateFaces (some ("MESH"))
      (isolateEnter (isolateEnter s B) C2) C2).2.shading = _ ∧ _
  rw [h3]
  constructor
  · show (isolateEnter (isolateEnter s B) C2).originalShading = _
    rw [isolateEnter_originalShading, isolateEnter_shading]
  · show (isolateEnter (isolateEnter s B) C2).originalSelectMode = _
    rw [isolateEnter_originalSelectMode, isolateEnter_selectMode]

/-- Witness for C8 (amended) at a concrete state. -/
theorem isolate_chain_restores_intermediate_witness :
    (("TRIS" : String) = "TRIS" ∨ ("TRIS" : String) = "NGONS" ∨
        ("TRIS" : String) = "NON_MANIFOLD" ∨ ("TRIS" : String) = "CONCAVE") ∧
      ("TRIS" : String) ≠ "NGONS" ∧ selState.activeIsolate = "" ∧
      ((toggleIsolateFaces (some ("MESH"))
          (toggleIsolateFaces (some ("MESH"))
            (toggleIsolateFaces (some ("MESH")) selState ("TRIS")).2 ("NGONS")).2
          ("NGONS")).2.shading =
        (if selState.showWire then ("WIREFRAME") else ("SOLID")) ∧
        (toggleIsolateFaces (some ("MESH"))
          (toggleIsolateFaces (some ("MESH"))
            (toggleIsolateFaces (some ("MESH")) selState ("TRIS")).2 ("NGONS")).2
          ("NGONS")).2.selectMode = (false, false, true)) :=
  ⟨Or.inl rfl, by decide, rfl,
    isolate_chain_restores_intermediate selState ("TRIS") ("NGONS") (Or.inl rfl)
      (by decide) rfl⟩

/-- A no-isolate session state whose shading is neither SOLID nor
WIREFRAME and whose selection mode is vertex-based. -/
def chainState : SceneState where
  verts := []
  edges := []
  faces := []
  shading := "MATERIAL"
  selectMode := (true, false, false)
  activeIsolate := ""
  originalShading := "SOLID"
  originalSelectMode := (false, false, true)
  showWire := true

/-- C8 counterexample. The chain B → C → (toggle C) does not restore the
pre-chain shading `MATERIAL` or the pre-chain vertex selection mode: it
ends in WIREFRAME shading with face-based selection. -/
theorem isolate_chain_loses_pre_chain_state :
    chainState.activeIsolate = "" ∧ chainState.shading = "MATERIAL" ∧
      chainState.selectMode = (true, false, false) ∧
      (toggleIsolateFaces (some ("MESH"))
        (toggleIsolateFaces (some ("MESH"))
          (toggleIsolateFaces (some ("MESH")) chainState ("TRIS")).2 ("NGONS")).2
        ("NGONS")).2.shading ≠ chainState.shading ∧
      (toggleIsolateFaces (some ("MESH"))
        (toggleIsolateFaces (some ("MESH"))
          (toggleIsolateFaces (some ("MESH")) chainState ("TRIS")).2 ("NGONS")).2
        ("NGONS")).2.selectMode ≠ chainState.selectMode := by
  refine ⟨rfl, rfl, rfl, ?_, ?_⟩ <;> decide

lemma nonManifoldEnter_selectMode (s : SceneState) :
    (nonManifoldEnter s).selectMode = (true, false, false) := rfl

lemma nonManifold_exec_enter (s : SceneState) (h : s.activeIsolate ≠ "NON_MANIFOLD") :
    isolateNonManifoldExec (some ("MESH")) s = (OpStatus.finished, nonManifoldEnter s) := by
  show (if ("MESH" : String) ≠ "MESH" then (OpStatus.cancelled, s)
    else if s.activeIsolate = "NON_MANIFOLD" then (OpStatus.finished, isolateRevert s)
    else (OpStatus.finished, nonManifoldEnter s)) = _
  rw [if_neg (fun hne => hne rfl), if_neg h]

/-- C9 (amended). Entering an isolate through `toggle_isolate_faces`
(TRIS, NGONS, NON_MANIFOLD, CONCAVE) always sets the face-based selection
triple (false, false, true); but entering the non-manifold isolate through
its dedicated operator ends in the vertex-based triple (true, false, false),
because `select_non_manifold_full` switches to vertex select mode last. -/
theorem isolate_select_mode_amended :
    (∀ (s : SceneState) (X : String),
        (X = "TRIS" ∨ X = "NGONS" ∨ X = "NON_MANIFOLD" ∨ X = "CONCAVE") →
        s.activeIsolate ≠ X →
        (toggleIsolateFaces (some ("MESH")) s X).2.selectMode = (false, false, true)) ∧
      (∀ s : SceneState, s.activeIsolate ≠ "NON_MANIFOLD" →
        (isolateNonManifoldExec (some ("MESH")) s).2.selectMode = (true, false, false)) := by
  constructor
  · intro s X _ hne
    rw [toggle_enter s X hne]
    exact isolateEnter_selectMode s X
  · intro s hne
    rw [nonManifold_exec_enter s hne]
    exact nonManifoldEnter_selectMode s

/-- Witness for C9 (amended) at concrete states. -/
theorem isolate_select_mode_amended_witness :
    (("TRIS" : String) = "TRIS" ∨ ("TRIS" : String) = "NGONS" ∨
        ("TRIS" : String) = "NON_MANIFOLD" ∨ ("TRIS" : String) = "CONCAVE") ∧
      selState.activeIsolate ≠ "TRIS" ∧ selState.activeIsolate ≠ "NON_MANIFOLD" ∧
      (toggleIsolateFaces (some ("MESH")) selState ("TRIS")).2.selectMode =
        (false, false, true) ∧
      (isolateNonManifoldExec (some ("MESH")) selState).2.selectMode =
        (true, false, false) :=
  ⟨Or.inl rfl, by decide, by decide,
    isolate_select_mode_amended.1 selState ("TRIS") (Or.inl rfl) (by decide),
    isolate_select_mode_amended.2 selState (by decide)⟩

/-- C9 counterexample. Entering the non-manifold isolate through its
operator leaves the selection mode vertex-based, not face-based. -/
theorem isolate_non_manifold_vertex_mode :
    (isolateNonManifoldExec (some ("MESH")) chainState).2.activeIsolate =
      "NON_MANIFOLD" ∧
      (isolateNonManifoldExec (some ("MESH")) chainState).2.selectMode =
        (true, false, false) ∧
      (isolateNonManifoldExec (some ("MESH")) chainState).2.selectMode ≠
        (false, false, true) := by
  refine ⟨rfl, rfl, ?_⟩
  decide

/-- `MESH_OT_select_overlapping_faces.execute`: on an ineligible object it
reports one warning and cancels; otherwise it runs the selection pass
(a host-state transformation, passed as a parameter since its effect on the
session state is not what this operator's guard is about). -/
def selectOverlappingFacesExec (body : SceneState → SceneState)
    (obj : Option String) (s : SceneState) : OpStatus × List String × SceneState :=
  match obj with
  | none => (OpStatus.cancelled, ["Select a mesh object"], s)
  | some objType =>
    if objType ≠ "MESH" then (OpStatus.cancelled, ["Select a mesh object"], s)
    else (OpStatus.finished, [], body s)

/-- `MESH_OT_revert_view.execute`: on an ineligible object it cancels with
NO message; otherwise it reveals and deselects everything. -/
def revertViewExec (obj : Option String) (s : SceneState) :
    OpStatus × List String × SceneState :=
  match obj with
  | none => (OpStatus.cancelled, [], s)
  | some objType =>
    if objType ≠ "MESH" then (OpStatus.cancelled, [], s)
    else (OpStatus.finished, [], revealDeselect s)

/-- `MESH_OT_triangulate.execute`: on an ineligible object it cancels with
NO message; otherwise it triangulates (host primitive, parametrized). -/
def triangulateExec (body : SceneState → SceneState) (obj : Option String)
    (s : SceneState) : OpStatus × List String × SceneState :=
  match obj with
  | none => (OpStatus.cancelled, [], s)
  | some objType =>
    if objType ≠ "MESH" then (OpStatus.cancelled, [], s)
    else (OpStatus.finished, [], body s)

/-- C10 (amended). When no eligible mesh object exists, every modeled
operator returns CANCELLED and mutates nothing; `select_overlapping_faces`
produces exactly one warning, while `revert_view` and `triangulate` produce
none. -/
theorem ineligible_operators_cancel (obj : Option String) (s : SceneState)
    (body1 body2 : SceneState → SceneState)
    (h : ¬ ∃ tp, obj = some tp ∧ tp = "MESH") :
    selectOverlappingFacesExec body1 obj s =
        (OpStatus.cancelled, ["Select a mesh object"], s) ∧
      (selectOverlappingFacesExec body1 obj s).2.1.length = 1 ∧
      revertViewExec obj s = (OpStatus.cancelled, [], s) ∧
      (revertViewExec obj s).2.1.length = 0 ∧
      triangulateExec body2 obj s = (OpStatus.cancelled, [], s) ∧
      (triangulateExec body2 obj s).2.1.length = 0 := by
  cases obj with
  | none => exact ⟨rfl, rfl, rfl, rfl, rfl, rfl⟩
  | some tp =>
    have htp : tp ≠ "MESH" := fun he => h ⟨tp, rfl, he⟩
    have h1 : selectOverlappingFacesExec body1 (some tp) s =
        (OpStatus.cancelled, ["Select a mesh object"], s) := by
      show (if tp ≠ "MESH" then (OpStatus.cancelled, ["Select a mesh object"], s)
        else (OpStatus.finished, [], body1 s)) = _
      rw [if_pos htp]
    have h2 : revertViewExec (some tp) s = (OpStatus.cancelled, [], s) := by
      show (if tp ≠ "MESH" then (OpStatus.cancelled, ([] : List String), s)
        else (OpStatus.finished, [], revealDeselect s)) = _
      rw [if_pos htp]
    have h3 : triangulateExec body2 (some tp) s = (OpStatus.cancelled, [], s) := by
      show (if tp ≠ "MESH" then (OpStatus.cancelled, ([] : List String), s)
        else (OpStatus.finished, [], body2 s)) = _
      rw [if_pos htp]
    rw [h1, h2, h3]
    exact ⟨rfl, rfl, rfl, rfl, rfl, rfl⟩

/-- Witness for C10 (amended) with no active object. -/
theorem ineligible_operators_cancel_witness :
    (¬ ∃ tp, (none : Option String) = some tp ∧ tp = "MESH") ∧
      (selectOverlappingFacesExec id none selState =
          (OpStatus.cancelled, ["Select a mesh object"], selState) ∧
        (selectOverlappingFacesExec id none selState).2.1.length = 1 ∧
        revertViewExec none selState = (OpStatus.cancelled, [], selState) ∧
        (revertViewExec none selState).2.1.length = 0 ∧
        triangulateExec id none selState = (OpStatus.cancelled, [], selState) ∧
        (triangulateExec id none selState).2.1.length = 0) :=
  ⟨by rintro ⟨tp, h, _⟩; exact Option.noConfusion h,
    ineligible_operators_cancel none selState id id
      (by rintro ⟨tp, h, _⟩; exact Option.noConfusion h)⟩

/-- C10 counterexample. `MESH_OT_revert_view.execute` with no eligible
object cancels without any warning message, not with exactly one. -/
theorem revert_view_cancels_without_warning :
    revertViewExec none selState = (OpStatus.cancelled, [], selState) ∧
      (revertViewExec none selState).2.1.length = 0 ∧
      (revertViewExec none selState).2.1.length ≠ 1 := by
  exact ⟨rfl, rfl, by decide⟩
